import Mathlib

/-!
# ScheduleMeetPage: the booking wizard of `client/src/pages/ScheduleMeetPage.jsx`

A shallow embedding of the React component `ScheduleMeetPage`:

* the component state (the eleven `useState` cells) is the structure `WizardState`;
* every event handler is a function on `WizardState`;
* the JSX returned by the component is the function `render`, which keeps the
  branch structure of the source (`loading ? … : error ? … : !bookingComplete ? … : …`)
  and the controls of every branch together with their `disabled` flags;
* JavaScript `Date` objects are their time value: milliseconds since the epoch,
  `none` standing for `NaN` (an invalid date).  The host (`Host`) supplies what
  the language leaves to the environment: the rules of the local time zone
  (`Zone`: an offset and the transitions to other offsets, from which
  `LocalTime` and `UTC` are computed as ECMA-262 prescribes) and the parser
  behind `new Date(string)`.  A zone without transitions, `Zone.fixed tz`, is a
  fixed offset of `tz` minutes east of UTC.  Every quantity that occurs is an
  integer below `2^53` or is clipped to `NaN` by `TimeClip`, so the double
  arithmetic of the language is exact on it.
* the clock is read by `new Date()`; a render reads it once for each of the
  seven dates it offers, so a render carries a `Clock`, the value of each of
  its reads;
* an ISO-8601 string produced by `toISOString` is represented by the time value
  it denotes (the serialisation is a bijection on valid time values);
* a running session is the transition system `Step` on `Sys`: the user fires
  the handlers of the controls that the current view offers, the two requests
  of the mount effects settle once each, and a `POST /consultation` that has
  been sent settles later; `Reach` collects the states of a session together
  with the clocks that its renders have read.
-/

namespace ScheduleMeet

/-! ## Time values (ECMAScript, section "Date objects") -/

def msPerMinute : Int := 60000

def msPerHour : Int := 3600000

def msPerDay : Int := 86400000

/-- Largest magnitude of a valid time value, 8.64e15 ms. -/
def maxTimeValue : Int := 8640000000000000

/-- TimeClip: a time value outside the representable range becomes `NaN`. -/
def timeClip (t : Int) : Option Int :=
  if -maxTimeValue ≤ t ∧ t ≤ maxTimeValue then some t else none

/-- Day number of a time value, `floor(t / msPerDay)`. -/
def day (t : Int) : Int := t / msPerDay

/-- HourFromTime. -/
def hourFromTime (t : Int) : Int := (t / msPerHour) % 24

/-- MinFromTime. -/
def minFromTime (t : Int) : Int := (t / msPerMinute) % 60

/-- SecFromTime. -/
def secFromTime (t : Int) : Int := (t / 1000) % 60

/-- Milliseconds within the second, msFromTime. -/
def msFromTime (t : Int) : Int := t % 1000

/-- MakeTime. -/
def makeTime (hour min sec ms : Int) : Int :=
  hour * msPerHour + min * msPerMinute + sec * 1000 + ms

/-- MakeDate. -/
def makeDate (d time : Int) : Int := d * msPerDay + time

/-- The rules of the local time zone of the host: the offset, in minutes
east of UTC, in force before the first transition, and the transitions in the
order of their instants, each with the UTC instant at which it happens and the
offset in force from then on. -/
structure Zone where
  base : Int
  transitions : List (Int × Int)

/-- A zone without transitions: `tz` minutes east of UTC at all times. -/
def Zone.fixed (tz : Int) : Zone := ⟨tz, []⟩

/-- The offset in force at the UTC instant `t`, for a zone that has the offset
`o` before the transitions listed. -/
def offsetAtFrom : Int → List (Int × Int) → Int → Int
  | o, [], _ => o
  | o, (at2, o2) :: rest, t => if t < at2 then o else offsetAtFrom o2 rest t

/-- The offset by which the local time `t` is read.  A local time that occurs
twice (the offset decreases) or not at all (the offset increases) is read with
the offset in force before the transition, as ECMA-262 prescribes for
`LocalTZA(t, false)`: the transition to `o2` at `at2` is passed only by local
times from `at2` plus the larger of the two offsets on. -/
def offsetOfLocalFrom : Int → List (Int × Int) → Int → Int
  | o, [], _ => o
  | o, (at2, o2) :: rest, t =>
    if t < at2 + max o o2 * msPerMinute then o else offsetOfLocalFrom o2 rest t

/-- The offset in force at a UTC instant, `LocalTZA(t, true)` in minutes. -/
def Zone.offsetAt (z : Zone) (t : Int) : Int := offsetAtFrom z.base z.transitions t

/-- The offset by which a local time is read, `LocalTZA(t, false)` in minutes. -/
def Zone.offsetOfLocal (z : Zone) (t : Int) : Int :=
  offsetOfLocalFrom z.base z.transitions t

/-- Every offset of the zone is within a day of UTC (real zones lie between
UTC-12:00 and UTC+14:00). -/
def Zone.Bounded (z : Zone) : Prop :=
  (-1440 ≤ z.base ∧ z.base ≤ 1440) ∧ ∀ r ∈ z.transitions, -1440 ≤ r.2 ∧ r.2 ≤ 1440

/-- LocalTime: the local reading of the UTC instant `t`. -/
def localTime (z : Zone) (t : Int) : Int := t + z.offsetAt t * msPerMinute

/-- The instant of a local time, called UTC in the language definition. -/
def utcOfLocal (z : Zone) (t : Int) : Int := t - z.offsetOfLocal t * msPerMinute

/-- Method `Date.prototype.getHours`. -/
def getHours (z : Zone) (tv : Option Int) : Option Int :=
  tv.map fun t => hourFromTime (localTime z t)

/-- Method `Date.prototype.getMinutes`. -/
def getMinutes (z : Zone) (tv : Option Int) : Option Int :=
  tv.map fun t => minFromTime (localTime z t)

/-- Method `Date.prototype.setHours(hour, min, sec, ms)` with all four
arguments: the local day is kept, the time within the day is replaced. -/
def setHours4 (z : Zone) (tv : Option Int) (hour min sec ms : Int) : Option Int :=
  match tv with
  | none => none
  | some t =>
    let lt := localTime z t
    timeClip (utcOfLocal z (makeDate (day lt) (makeTime hour min sec ms)))

/-- Method `Date.prototype.setHours(hour)` with one argument: minutes,
seconds and milliseconds are those of the current local time. -/
def setHours1 (z : Zone) (tv : Option Int) (hour : Option Int) : Option Int :=
  match tv, hour with
  | some t, some h =>
    let lt := localTime z t
    timeClip (utcOfLocal z
      (makeDate (day lt) (makeTime h (minFromTime lt) (secFromTime lt) (msFromTime lt))))
  | _, _ => none

/-- Method `Date.prototype.setMinutes(min)` with one argument. -/
def setMinutes1 (z : Zone) (tv : Option Int) (min : Option Int) : Option Int :=
  match tv, min with
  | some t, some m =>
    let lt := localTime z t
    timeClip (utcOfLocal z
      (makeDate (day lt) (makeTime (hourFromTime lt) m (secFromTime lt) (msFromTime lt))))
  | _, _ => none

/-! ## The proleptic Gregorian calendar -/

/-- Day number (days since 1970-01-01) of the civil date `y-m-d`. -/
def daysFromCivil (y m d : Int) : Int :=
  let y1 := if m ≤ 2 then y - 1 else y
  let era := y1 / 400
  let yoe := y1 - era * 400
  let mp := (m + 9) % 12
  let doy := (153 * mp + 2) / 5 + d - 1
  let doe := yoe * 365 + yoe / 4 - yoe / 100 + doy
  era * 146097 + doe - 719468

/-- Civil date `(year, month, day)` of a day number. -/
def civilFromDays (z0 : Int) : Int × Int × Int :=
  let z := z0 + 719468
  let era := z / 146097
  let doe := z - era * 146097
  let yoe := (doe - doe / 1460 + doe / 36524 - doe / 146096) / 365
  let doy := doe - (365 * yoe + yoe / 4 - yoe / 100)
  let mp := (5 * doy + 2) / 153
  let d := doy - (153 * mp + 2) / 5 + 1
  let m := if mp < 10 then mp + 3 else mp - 9
  let y := yoe + era * 400
  (if m ≤ 2 then y + 1 else y, m, d)

def isLeapYear (y : Int) : Bool :=
  (y % 4 == 0 && y % 100 != 0) || y % 400 == 0

def daysInMonth (y m : Int) : Int :=
  if m == 2 then (if isLeapYear y then 29 else 28)
  else if m == 4 || m == 6 || m == 9 || m == 11 then 30
  else 31

/-! ## Strings of digits -/

/-- Value of a decimal digit character. -/
def digitVal (c : Char) : Nat := c.toNat - 48

/-- Function `parseInt` on a string of decimal digits. -/
def parseInt (ds : List Char) : Nat :=
  ds.foldl (fun acc c => 10 * acc + digitVal c) 0

/-- The decimal digit character of `n % 10`. -/
def digitChar (n : Nat) : Char := Char.ofNat (48 + n % 10)

/-- The last `k` decimal digits of `n`, zero padded. -/
def padDigits : Nat → Nat → List Char
  | 0, _ => []
  | k + 1, n => padDigits k (n / 10) ++ [digitChar n]

/-- The date-only form `yyyy-MM-dd` of the ECMA-262 date-time string format,
with a valid calendar date: the day number it denotes.  This is the form the
component stores in `selectedDate` (it comes from `format(date, 'yyyy-MM-dd')`),
and the one form of it that every engine must read in the same way, as
midnight UTC of that day. -/
def parseDateOnly (s : String) : Option Int :=
  match s.toList with
  | [y1, y2, y3, y4, '-', m1, m2, '-', d1, d2] =>
    if [y1, y2, y3, y4, m1, m2, d1, d2].all Char.isDigit then
      let y : Int := parseInt [y1, y2, y3, y4]
      let m : Int := parseInt [m1, m2]
      let d : Int := parseInt [d1, d2]
      if 1 ≤ m ∧ m ≤ 12 ∧ 1 ≤ d ∧ d ≤ daysInMonth y m then
        some (daysFromCivil y m d)
      else none
    else none
  | _ => none

/-- A parser that reads the date-only form and nothing else. -/
def isoDateParse (s : String) : Option Int :=
  (parseDateOnly s).map fun d => d * msPerDay

/-- The execution environment: the rules of its local time zone and its
`Date.parse`, the time value that `new Date(string)` gets (`none` for `NaN`).
What a string outside the date-time string format parses to is left to the
engine by ECMA-262, so it is left open here. -/
structure Host where
  zone : Zone
  parse : String → Option Int

/-- What ECMA-262 demands of the parser: a valid date-only string is midnight
UTC of its day, and a time value is within the range of time values. -/
def Host.Conforms (host : Host) : Prop :=
  (∀ s d, parseDateOnly s = some d → host.parse s = some (d * msPerDay)) ∧
  ∀ s t, host.parse s = some t → -maxTimeValue ≤ t ∧ t ≤ maxTimeValue

/-- The host with the given zone whose parser reads the date-only form only. -/
def Host.strict (z : Zone) : Host := ⟨z, isoDateParse⟩

/-- Constructor `new Date(dateStr)`: the time value, `none` for an invalid date. -/
def newDate (host : Host) (s : String) : Option Int := host.parse s

/-- Call `format(date, 'yyyy-MM-dd')` of date-fns on a valid date: the local
calendar date, for years 1 to 9999. -/
def formatYMD (z : Zone) (t : Int) : String :=
  let c := civilFromDays (day (localTime z t))
  String.mk (padDigits 4 c.1.toNat ++ '-' :: padDigits 2 c.2.1.toNat ++ '-' :: padDigits 2 c.2.2.toNat)

/-! ## The time label -/

/-- Groups captured by the regular expression `/(\d+):(\d+) (AM|PM)/`. -/
structure TimeParts where
  hours : List Char
  minutes : List Char
  pm : Bool
  deriving DecidableEq, Repr

/-- An attempt to match `(\d+):(\d+) (AM|PM)` at the head of the input.  Both
`\d+` are greedy and each is followed by a character that is not a digit, so
the only run of digits that can succeed is the longest one. -/
def matchTimeAt (cs : List Char) : Option TimeParts :=
  let hs := cs.takeWhile Char.isDigit
  if hs.isEmpty then none else
  match cs.dropWhile Char.isDigit with
  | ':' :: r =>
    let ms := r.takeWhile Char.isDigit
    if ms.isEmpty then none else
    match r.dropWhile Char.isDigit with
    | ' ' :: 'A' :: 'M' :: _ => some ⟨hs, ms, false⟩
    | ' ' :: 'P' :: 'M' :: _ => some ⟨hs, ms, true⟩
    | _ => none
  | _ => none

/-- The leftmost match of the (unanchored) expression in the input. -/
def searchTime : List Char → Option TimeParts
  | [] => none
  | c :: cs =>
    match matchTimeAt (c :: cs) with
    | some p => some p
    | none => searchTime cs

/-- Call `timeStr.match(/(\d+):(\d+) (AM|PM)/)`. -/
def timeMatch (timeStr : String) : Option TimeParts := searchTime timeStr.toList

/-- Lines 107-113 of the source: the captured hour converted to the 24-hour
clock, and the captured minute. -/
def to24Hour (p : TimeParts) : Nat × Nat :=
  let hours := parseInt p.hours
  let minutes := parseInt p.minutes
  let hours := if p.pm ∧ hours < 12 then hours + 12 else hours
  let hours := if ¬ p.pm ∧ hours = 12 then 0 else hours
  (hours, minutes)

/-- The `(hours, minutes)` that `convertToISODateTime` computes from the time
string before it touches the date; `none` when the string does not match. -/
def parseTimeLabel (timeStr : String) : Option (Nat × Nat) :=
  (timeMatch timeStr).map to24Hour

/-- A thrown value, reduced to what the handlers read of it: `err.message`. -/
structure JsError where
  message : Option String
  deriving DecidableEq, Repr

/-- Method `toISOString`: throws a `RangeError` on an invalid date. -/
def toISOString (tv : Option Int) : Except JsError Int :=
  match tv with
  | some t => .ok t
  | none => .error ⟨some "Invalid time value"⟩

/-- Function `convertToISODateTime(dateStr, timeStr)`: `.ok none` is the
`null` returned for a time string without a label, `.ok (some t)` the instant
that is serialised, `.error` the exception of `toISOString`. -/
def convertToISODateTime (host : Host) (dateStr timeStr : String) :
    Except JsError (Option Int) :=
  let date := newDate host dateStr
  match parseTimeLabel timeStr with
  | none => .ok none
  | some (hours, minutes) =>
    let date := setHours4 host.zone date hours minutes 0 0
    let date := setMinutes1 host.zone date ((getMinutes host.zone date).map fun m => m + 330)
    (toISOString date).map some

/-- Lines 144-146 of the source: `new Date(startTime)`, one hour added with
`setHours(getHours() + 1)`, serialised.  `new Date(null)` is the epoch. -/
def endTimeOf (z : Zone) (startTime : Option Int) : Except JsError Int :=
  let endDateTime : Option Int := some (startTime.getD 0)
  let endDateTime := setHours1 z endDateTime ((getHours z endDateTime).map fun h => h + 1)
  toISOString endDateTime

/-- The seven fixed slot labels. -/
def availableTimeSlots : List String :=
  ["09:00 AM", "10:00 AM", "11:00 AM", "01:00 PM", "02:00 PM", "03:00 PM", "04:00 PM"]

/-- MakeDay for a month number in 1..12: the day number of the first of the
month, plus `dt - 1`; a `dt` beyond the end of the month runs into the
following months. -/
def makeDay (y m dt : Int) : Int := daysFromCivil y m 1 + dt - 1

/-- Method `Date.prototype.getDate`: the day of the month in local time. -/
def getDate (z : Zone) (tv : Option Int) : Option Int :=
  tv.map fun t => (civilFromDays (day (localTime z t))).2.2

/-- Method `Date.prototype.setDate(dt)`: year, month and time within the day
are those of the current local time. -/
def setDate (z : Zone) (tv : Option Int) (dt : Option Int) : Option Int :=
  match tv, dt with
  | some t, some d =>
    let lt := localTime z t
    let c := civilFromDays (day lt)
    timeClip (utcOfLocal z (makeDate (makeDay c.1 c.2.1 d) (lt - day lt * msPerDay)))
  | _, _ => none

/-- The clock as one render reads it: `clock i` is the value of the `new
Date()` evaluated for entry `i` of `availableDates`. -/
abbrev Clock := Nat → Int

/-- Lines 31-35: the seven dates offered by a render; entry `i` starts from
its own reading of the clock.  An invalid date would make `format` throw,
which cannot happen for a clock inside the range of time values and is
rendered as the empty string here. -/
def availableDates (z : Zone) (clock : Clock) : List String :=
  (List.range 7).map fun i =>
    let date : Option Int := some (clock i)
    let date := setDate z date ((getDate z date).map fun d => d + (i : Int) + 1)
    match date with
    | some t => formatYMD z t
    | none => ""

/-- The label `hh:mm AM` or `hh:mm PM`, both numbers written with two digits. -/
def timeLabel (hh mm : Nat) (pm : Bool) : String :=
  String.mk (padDigits 2 hh ++ ':' :: (padDigits 2 mm ++ ' ' :: (if pm then 'P' else 'A') :: ['M']))

/-- The instant at which the wall clock of a host `tz` minutes east of UTC
reads `hour:min:00.000` on the day with day number `d`. -/
def wallClockInstant (tz d hour min : Int) : Int :=
  makeDate d (makeTime hour min 0 0) - tz * msPerMinute

/-! ## The component state -/

/-- A record of `GET /users`. -/
structure User where
  _id : String
  name : String
  role : String
  picture : Option String
  specialization : Option String
  email : Option String
  deriving DecidableEq, Repr

/-- The body of `GET /find-user`. -/
structure UserData where
  name : Option String
  email : Option String
  deriving DecidableEq, Repr

/-- The body of a successful `POST /consultation`, reduced to the field the
component reads. -/
structure EventInfo where
  eventLink : Option String
  deriving DecidableEq, Repr

structure FormData where
  firstName : String
  lastName : String
  email : String
  name : String
  caseDetails : String
  deriving DecidableEq, Repr

/-- The eleven `useState` cells of the component (lines 7-23). -/
structure WizardState where
  currentStep : Int
  selectedLawyer : Option String
  selectedDate : String
  selectedTime : String
  formData : FormData
  isSubmitting : Bool
  bookingComplete : Bool
  lawyers : List User
  loading : Bool
  error : Option String
  calendarEventInfo : Option EventInfo
  deriving DecidableEq, Repr

/-- The state of a freshly mounted component. -/
def initialState : WizardState where
  currentStep := 1
  selectedLawyer := none
  selectedDate := ""
  selectedTime := ""
  formData := ⟨"", "", "", "", ""⟩
  isSubmitting := false
  bookingComplete := false
  lawyers := []
  loading := true
  error := none
  calendarEventInfo := none

/-- Truthiness of a string: every string but the empty one. -/
def truthy (s : String) : Bool := s != ""

/-- Truthiness of a value that is `null`, `undefined` or a string. -/
def truthyOpt (v : Option String) : Bool :=
  match v with
  | some s => truthy s
  | none => false

/-- The expression `v || dflt` for a `v` that is absent or a string. -/
def orDefault (v : Option String) (dflt : String) : String :=
  match v with
  | some s => if truthy s then s else dflt
  | none => dflt

/-! ## Handlers -/

/-- The body of `POST /consultation` (lines 149-156); the two instants stand
for their ISO-8601 strings, `none` for `null`. -/
structure MeetingData where
  title : String
  description : String
  startTime : Option Int
  endTime : Int
  attendees : List String
  lawyerId : String
  deriving DecidableEq, Repr

/-- How the promise of `axios.post` settles. -/
inductive PostOutcome where
  | resolved (data : Option EventInfo)
  | rejected (err : JsError)
  deriving DecidableEq, Repr

/-- The state update of `fetchUserData` when `GET /find-user` resolves with
body `data` (lines 49-55); a rejected request changes nothing. -/
def fetchUserDataResolved (data : Option UserData) (s : WizardState) : WizardState :=
  match data with
  | some d =>
    { s with formData := { s.formData with
        name := orDefault d.name "", email := orDefault d.email "" } }
  | none => s

/-- Line 68: `setLoading(true)` at the start of `fetchLawyers`. -/
def fetchLawyersBegin (s : WizardState) : WizardState :=
  { s with loading := true }

/-- Lines 71-72 and 77: `GET /users` resolved with the array `users`. -/
def fetchLawyersResolved (users : List User) (s : WizardState) : WizardState :=
  let lawyerUsers := users.filter fun user => user.role == "lawyer"
  { s with lawyers := lawyerUsers, loading := false }

/-- Lines 74 and 77: `GET /users` rejected. -/
def fetchLawyersRejected (err : JsError) (s : WizardState) : WizardState :=
  { s with error := some (orDefault err.message "Failed to fetch lawyers"), loading := false }

/-- The whole of `fetchLawyers` for a request that settles as `r`. -/
def fetchLawyers (r : Except JsError (List User)) (s : WizardState) : WizardState :=
  match r with
  | .ok users => fetchLawyersResolved users (fetchLawyersBegin s)
  | .error err => fetchLawyersRejected err (fetchLawyersBegin s)

/-- Lines 84-90: one key of `formData` replaced; a key that is not one of
the five fields adds a property nothing reads. -/
def handleInputChange (name value : String) (s : WizardState) : WizardState :=
  if name = "firstName" then { s with formData := { s.formData with firstName := value } }
  else if name = "lastName" then { s with formData := { s.formData with lastName := value } }
  else if name = "email" then { s with formData := { s.formData with email := value } }
  else if name = "name" then { s with formData := { s.formData with name := value } }
  else if name = "caseDetails" then { s with formData := { s.formData with caseDetails := value } }
  else s

def handleNextStep (s : WizardState) : WizardState :=
  { s with currentStep := s.currentStep + 1 }

def handlePrevStep (s : WizardState) : WizardState :=
  { s with currentStep := s.currentStep - 1 }

def setSelectedLawyer (id : String) (s : WizardState) : WizardState :=
  { s with selectedLawyer := some id }

def setSelectedDate (date : String) (s : WizardState) : WizardState :=
  { s with selectedDate := date }

def setSelectedTime (time : String) (s : WizardState) : WizardState :=
  { s with selectedTime := time }

/-- Lines 179-181: the first entry of `lawyers` whose `_id` is the selection. -/
def getSelectedLawyerInfo (s : WizardState) : Option User :=
  s.lawyers.find? fun lawyer => some lawyer._id == s.selectedLawyer

/-- Lines 129-156, the part of the `try` block that runs before the request:
either the body of the request or the exception thrown. -/
def buildMeetingData (host : Host) (s : WizardState) : Except JsError MeetingData :=
  match getSelectedLawyerInfo s with
  | none => .error ⟨some "Selected lawyer not found"⟩
  | some selectedLawyerInfo =>
    let lawyerEmail := selectedLawyerInfo.email
    if ¬ truthyOpt lawyerEmail then .error ⟨some "Lawyer email not available"⟩ else
    match convertToISODateTime host s.selectedDate s.selectedTime with
    | .error err => .error err
    | .ok startTime =>
      match endTimeOf host.zone startTime with
      | .error err => .error err
      | .ok endTime =>
        .ok {
          title := "Legal Consultation with " ++ selectedLawyerInfo.name
          description := "Case Details: " ++
            (if truthy s.formData.caseDetails then s.formData.caseDetails else "No details provided")
          startTime := startTime
          endTime := endTime
          attendees := [s.formData.email, lawyerEmail.getD ""]
          lawyerId := selectedLawyerInfo._id }

/-- The request body, as a function of what the handler read. -/
def meetingDataOf (s : WizardState) (u : User) (em : String) (st : Option Int) (en : Int) :
    MeetingData where
  title := "Legal Consultation with " ++ u.name
  description := "Case Details: " ++
    (if truthy s.formData.caseDetails then s.formData.caseDetails else "No details provided")
  startTime := st
  endTime := en
  attendees := [s.formData.email, em]
  lawyerId := u._id

/-- Line 126: `setIsSubmitting(true)`. -/
def submitBegin (s : WizardState) : WizardState :=
  { s with isSubmitting := true }

/-- Lines 163-170: what the rest of `handleSubmit` does to the state once the
`try` block has ended, normally with the response body or with an exception. -/
def submitSettle (r : Except JsError (Option EventInfo)) (s : WizardState) : WizardState :=
  match r with
  | .ok data =>
    { s with calendarEventInfo := data, bookingComplete := true, isSubmitting := false }
  | .error err =>
    { s with error := some (orDefault err.message "Failed to book consultation"),
             isSubmitting := false }

/-- Result of one run of `handleSubmit`: the state left behind and the
requests sent to `POST /consultation`. -/
structure SubmitResult where
  state : WizardState
  requests : List MeetingData

/-- Lines 124-171.  The handler reads the state of the render it was created
in (`s`); `post` is the behaviour of the server on the request it receives. -/
def handleSubmit (host : Host) (post : MeetingData → PostOutcome) (s : WizardState) :
    SubmitResult :=
  match buildMeetingData host s with
  | .error err => ⟨submitSettle (.error err) (submitBegin s), []⟩
  | .ok meetingData =>
    match post meetingData with
    | .resolved data => ⟨submitSettle (.ok data) (submitBegin s), [meetingData]⟩
    | .rejected err => ⟨submitSettle (.error err) (submitBegin s), [meetingData]⟩

/-- The exception that reaches the `catch` block of `handleSubmit`, if any. -/
def submitFailure (host : Host) (post : MeetingData → PostOutcome) (s : WizardState) :
    Option JsError :=
  match buildMeetingData host s with
  | .error err => some err
  | .ok meetingData =>
    match post meetingData with
    | .resolved _ => none
    | .rejected err => some err

/-! ## The rendered view -/

/-- A card of step 1 (lines 277-296); a click calls `setSelectedLawyer id`. -/
structure LawyerCard where
  id : String
  name : String
  picture : String
  specialization : String
  highlighted : Bool
  deriving DecidableEq, Repr

/-- What the wizard branch shows below the step indicator.  Steps 2, 3 and 4
carry a Back button that is never disabled; steps 1, 2 and 3 carry the
Continue button (`Review Booking` on step 3) with the given `disabled` flag;
step 4 carries the submit button. -/
inductive StepView where
  -- lines 263-311: the cards and the Continue button
  | selectLawyer (cards : List LawyerCard) (continueDisabled : Bool)
  -- lines 315-385: the date buttons, the time buttons (only when a date is
  -- selected) and the Continue button
  | dateTime (dates : List String) (times : Option (List String)) (continueDisabled : Bool)
  -- lines 388-463: two read-only inputs, the case details and Continue
  | details (name email caseDetails : String) (continueDisabled : Bool)
  -- lines 466-572: the summary (`date` is the time value handed to
  -- `formatDate`) and the submit button with its label
  | confirm (lawyer : Option User) (date : Int) (time name email : String)
      (caseDetails : Option String) (submitDisabled : Bool) (submitLabel : String)
  -- no step is shown: `currentStep` is none of 1, 2, 3, 4
  | blank
  deriving DecidableEq, Repr

/-- The four branches of lines 200-627, and the failure of the render itself
(`format` of date-fns throws on an invalid date). -/
inductive View where
  | loading
  | errorPage (error : String)
  | wizard (currentStep : Int) (body : StepView)
  | complete (lawyerName : Option String) (date : Int) (time : String)
      (eventLink : Option String) (email : String)
  | renderError (err : JsError)
  deriving DecidableEq, Repr

/-- Lines 173-176: `formatDate(dateString)`; the result is represented by
the time value that is formatted, and `format` of date-fns throws a
`RangeError` on an invalid date. -/
def formatDate (host : Host) (dateString : String) : Except JsError Int :=
  match newDate host dateString with
  | some date => .ok date
  | none => .error ⟨some "Invalid time value"⟩

def lawyerCard (s : WizardState) (lawyer : User) : LawyerCard where
  id := lawyer._id
  name := lawyer.name
  picture := orDefault lawyer.picture "/api/placeholder/64/64"
  specialization := orDefault lawyer.specialization "Legal Consultant"
  highlighted := s.selectedLawyer == some lawyer._id

/-- The wizard branch (lines 213-573) for a render that reads `clock`. -/
def renderStep (host : Host) (clock : Clock) (s : WizardState) : Except JsError StepView :=
  if s.currentStep = 1 then
    .ok (.selectLawyer (s.lawyers.map (lawyerCard s)) (s.selectedLawyer == none))
  else if s.currentStep = 2 then
    .ok (.dateTime (availableDates host.zone clock)
      (if truthy s.selectedDate then some availableTimeSlots else none)
      (!truthy s.selectedDate || !truthy s.selectedTime))
  else if s.currentStep = 3 then
    .ok (.details s.formData.name s.formData.email s.formData.caseDetails
      (!truthy s.formData.name || !truthy s.formData.email))
  else if s.currentStep = 4 then
    match formatDate host s.selectedDate with
    | .error err => .error err
    | .ok date =>
      .ok (.confirm (getSelectedLawyerInfo s) date s.selectedTime s.formData.name s.formData.email
        (if truthy s.formData.caseDetails then some s.formData.caseDetails else none)
        s.isSubmitting
        (if s.isSubmitting then "Processing..." else "Confirm Booking"))
  else .ok .blank

/-- Line 606: `calendarEventInfo?.eventLink`, when it is truthy. -/
def eventLinkOf (info : Option EventInfo) : Option String :=
  match info with
  | some i => if truthyOpt i.eventLink then i.eventLink else none
  | none => none

/-- The component body, lines 200-627. -/
def render (host : Host) (clock : Clock) (s : WizardState) : View :=
  if s.loading then .loading
  else if truthyOpt s.error then .errorPage (s.error.getD "")
  else if !s.bookingComplete then
    match renderStep host clock s with
    | .ok body => .wizard s.currentStep body
    | .error err => .renderError err
  else
    match formatDate host s.selectedDate with
    | .error err => .renderError err
    | .ok date =>
      .complete ((getSelectedLawyerInfo s).map fun l => l.name) date s.selectedTime
        (eventLinkOf s.calendarEventInfo) s.formData.email

/-- The `disabled` flag of the Continue button, when the view has one. -/
def View.continueDisabled : View → Option Bool
  | .wizard _ (.selectLawyer _ d) => some d
  | .wizard _ (.dateTime _ _ d) => some d
  | .wizard _ (.details _ _ _ d) => some d
  | _ => none

/-- The `disabled` flag of the submit button, when the view has one. -/
def View.submitDisabled : View → Option Bool
  | .wizard _ (.confirm _ _ _ _ _ _ d _) => some d
  | _ => none

/-- Whether the view has a Back button. -/
def View.hasBack : View → Bool
  | .wizard _ (.dateTime _ _ _) => true
  | .wizard _ (.details _ _ _ _) => true
  | .wizard _ (.confirm _ _ _ _ _ _ _ _) => true
  | _ => false

/-- A click on Continue: the handler runs when the button is there and is
not disabled. -/
def clickContinue (host : Host) (clock : Clock) (s : WizardState) : WizardState :=
  if (render host clock s).continueDisabled = some false then handleNextStep s else s

/-! ## Transitions -/

/-- Everything that can change the state: the completions of the two
fetches and the handlers bound to controls. -/
inductive Event where
  | userDataResolved (data : Option UserData)
  | userDataRejected
  | lawyersBegin
  | lawyersResolved (users : List User)
  | lawyersRejected (err : JsError)
  | selectLawyer (id : String)
  | selectDate (date : String)
  | selectTime (time : String)
  | inputChange (name value : String)
  | nextStep
  | prevStep
  | submit (post : MeetingData → PostOutcome)
  | submitBegin
  | submitSettle (r : Except JsError (Option EventInfo))

/-- The state change of an event, whether or not a control for it is on
screen. -/
def applyEvent (host : Host) (s : WizardState) : Event → WizardState
  | .userDataResolved data => fetchUserDataResolved data s
  | .userDataRejected => s
  | .lawyersBegin => fetchLawyersBegin s
  | .lawyersResolved users => fetchLawyersResolved users s
  | .lawyersRejected err => fetchLawyersRejected err s
  | .selectLawyer id => setSelectedLawyer id s
  | .selectDate date => setSelectedDate date s
  | .selectTime time => setSelectedTime time s
  | .inputChange name value => handleInputChange name value s
  | .nextStep => handleNextStep s
  | .prevStep => handlePrevStep s
  | .submit post => (handleSubmit host post s).state
  | .submitBegin => submitBegin s
  | .submitSettle r => submitSettle r s

/-! ## The running component -/

/-- The date string `yyyy-MM-dd` of the day with the given day number. -/
def ymdOfDay (z : Int) : String :=
  let c := civilFromDays z
  String.mk (padDigits 4 c.1.toNat ++ '-' :: padDigits 2 c.2.1.toNat ++ '-' :: padDigits 2 c.2.2.toNat)

/-- The component together with what it is waiting for: the two requests of
the mount effects (each settles once) and the `POST /consultation` requests
that have been sent and have not settled. -/
structure Sys where
  ui : WizardState
  userPending : Bool
  lawyersPending : Bool
  inFlight : List MeetingData

/-- The component right after it is mounted: both effects have sent their
request (line 68 sets `loading`, which is already `true`). -/
def Sys.init : Sys where
  ui := initialState
  userPending := true
  lawyersPending := true
  inFlight := []

/-- The events a view lets the user fire: the handler bound to each control
that is on screen and not disabled.  The name and email inputs of step 3 are
read-only and fire nothing. -/
def View.offers : View → Event → Prop
  | .wizard _ (.selectLawyer cards _), .selectLawyer id => ∃ c ∈ cards, c.id = id
  | .wizard _ (.selectLawyer _ d), .nextStep => d = false
  | .wizard _ (.dateTime dates _ _), .selectDate date => date ∈ dates
  | .wizard _ (.dateTime _ (some times) _), .selectTime time => time ∈ times
  | .wizard _ (.dateTime _ _ d), .nextStep => d = false
  | .wizard _ (.dateTime _ _ _), .prevStep => True
  | .wizard _ (.details _ _ _ _), .inputChange name _ => name = "caseDetails"
  | .wizard _ (.details _ _ _ d), .nextStep => d = false
  | .wizard _ (.details _ _ _ _), .prevStep => True
  | .wizard _ (.confirm _ _ _ _ _ _ _ _), .prevStep => True
  | .wizard _ (.confirm _ _ _ _ _ _ d _), .submitBegin => d = false
  | _, _ => False

/-- How a settled `POST /consultation` leaves the `try` block. -/
def PostOutcome.toExcept : PostOutcome → Except JsError (Option EventInfo)
  | .resolved data => .ok data
  | .rejected err => .error err

/-- One state change of the running component.  `shown` is the clock of the
render that is on screen, whose controls the user can use. -/
inductive Step (host : Host) (shown : Clock) : Sys → Sys → Prop where
  | userDataResolved (s : Sys) (data : Option UserData) (h : s.userPending = true) :
      Step host shown s { s with ui := fetchUserDataResolved data s.ui, userPending := false }
  | userDataRejected (s : Sys) (h : s.userPending = true) :
      Step host shown s { s with userPending := false }
  | lawyersResolved (s : Sys) (users : List User) (h : s.lawyersPending = true) :
      Step host shown s { s with ui := fetchLawyersResolved users s.ui, lawyersPending := false }
  | lawyersRejected (s : Sys) (err : JsError) (h : s.lawyersPending = true) :
      Step host shown s { s with ui := fetchLawyersRejected err s.ui, lawyersPending := false }
  | control (s : Sys) (e : Event) (h : (render host shown s.ui).offers e)
      (hne : e ≠ Event.submitBegin) :
      Step host shown s { s with ui := applyEvent host s.ui e }
  | submitThrew (s : Sys) (err : JsError)
      (h : (render host shown s.ui).offers Event.submitBegin)
      (hb : buildMeetingData host s.ui = .error err) :
      Step host shown s { s with ui := submitSettle (.error err) (submitBegin s.ui) }
  | submitSent (s : Sys) (md : MeetingData)
      (h : (render host shown s.ui).offers Event.submitBegin)
      (hb : buildMeetingData host s.ui = .ok md) :
      Step host shown s { s with ui := submitBegin s.ui, inFlight := md :: s.inFlight }
  | postSettled (s : Sys) (md : MeetingData) (rest : List MeetingData) (r : PostOutcome)
      (h : s.inFlight = md :: rest) :
      Step host shown s { s with ui := submitSettle r.toExcept s.ui, inFlight := rest }

/-- The states of a session.  `Reach host renders s` says that the renders of
the session so far have read the clocks `renders`, the latest first, and that
the latest of them shows the state `s`.  Every state change is followed by a
render, and a render can also happen on its own (the parent re-renders). -/
inductive Reach (host : Host) : List Clock → Sys → Prop where
  | init (c : Clock) : Reach host [c] Sys.init
  | rerender (c : Clock) (past : List Clock) (s : Sys) (c2 : Clock)
      (h : Reach host (c :: past) s) : Reach host (c2 :: c :: past) s
  | step (c : Clock) (past : List Clock) (s s2 : Sys) (c2 : Clock)
      (h : Reach host (c :: past) s) (hs : Step host c s s2) :
      Reach host (c2 :: c :: past) s2

/-- What holds in every state of a session whose renders have read the clocks
`renders`. -/
structure Invariant (host : Host) (renders : List Clock) (s : Sys) : Prop where
  step_lo : 1 ≤ s.ui.currentStep
  step_hi : s.ui.currentStep ≤ 4
  pending_lawyers : s.lawyersPending = true → s.ui.loading = true ∧ s.ui.selectedLawyer = none
  lawyer_known : ∀ id, s.ui.selectedLawyer = some id → ∃ u ∈ s.ui.lawyers, u._id = id
  lawyer_set : 2 ≤ s.ui.currentStep → s.ui.selectedLawyer ≠ none
  date_offered : s.ui.selectedDate = "" ∨
    ∃ c ∈ renders, s.ui.selectedDate ∈ availableDates host.zone c
  time_offered : s.ui.selectedTime = "" ∨ s.ui.selectedTime ∈ availableTimeSlots
  slot_set : 3 ≤ s.ui.currentStep → s.ui.selectedDate ≠ "" ∧ s.ui.selectedTime ≠ ""
  contact_set : 4 ≤ s.ui.currentStep → s.ui.formData.name ≠ "" ∧ s.ui.formData.email ≠ ""
  pending_user : s.userPending = true → s.ui.formData.name = "" ∧ s.ui.formData.email = ""
  one_post : (s.inFlight = [] ∧ s.ui.isSubmitting = false) ∨
    ∃ md, s.inFlight = [md] ∧ s.ui.isSubmitting = true

/-- A clock all of whose readings lie in the years 5 to 9987. -/
def Clock.InRange (c : Clock) : Prop :=
  ∀ i, -62000000000000 ≤ c i ∧ c i ≤ 253000000000000

/-! ## Sample data -/

def lawyerAsha : User :=
  ⟨"L1", "Asha Rao", "lawyer", none, some "Family Law", some "asha@example.com"⟩

def clientBen : User :=
  ⟨"U2", "Ben Okri", "client", none, none, some "ben@example.com"⟩

def lawyerNoMail : User :=
  ⟨"L3", "Chen Li", "lawyer", none, none, none⟩

/-- A state on the Confirm step with everything filled in. -/
def readyState : WizardState :=
  { initialState with
    currentStep := 4
    selectedLawyer := some "L1"
    selectedDate := "2024-06-10"
    selectedTime := "02:00 PM"
    formData := ⟨"", "", "dana@example.com", "Dana", ""⟩
    lawyers := [lawyerAsha, lawyerNoMail]
    loading := false }

/-- A host in India: UTC+5:30 all year. -/
def indiaHost : Host := Host.strict (Zone.fixed 330)

/-- A host in Bogota: UTC-5 all year. -/
def bogotaHost : Host := Host.strict (Zone.fixed (-300))

/-- The rules of Pacific/Easter in 2024: UTC-5 until 2024-04-07 03:00 UTC
(22:00 of 6 April on the local clock, which goes back to 21:00), then UTC-6
until 2024-09-08 04:00 UTC. -/
def easterZone : Zone := ⟨-300, [(1712458800000, -360), (1725768000000, -300)]⟩

def easterHost : Host := Host.strict easterZone

/-- The rules of America/Nuuk in 2024: UTC-2 until 2024-03-31 01:00 UTC (23:00
of 30 March on the local clock, which jumps to 00:00), then UTC-1 until
2024-10-27 01:00 UTC. -/
def nuukZone : Zone := ⟨-120, [(1711846800000, -60), (1729990800000, -120)]⟩

def nuukHost : Host := Host.strict nuukZone

/-- The Confirm step with the date `2024-04-07` and the slot `04:00 PM`. -/
def easterBooking : WizardState :=
  { readyState with
    selectedDate := "2024-04-07"
    selectedTime := "04:00 PM" }

/-- A clock all of whose readings in one render are the instant `t`. -/
def steady (t : Int) : Clock := fun _ => t

/-- The instant 2024-06-09 23:59 on a UTC+5:30 wall clock. -/
def beforeMidnight : Int := 1717957740000

/-- The instant 2024-06-10 00:01 on a UTC+5:30 wall clock. -/
def afterMidnight : Int := 1717957860000

/-- A render on a UTC+5:30 host during which the day changes: the first three
readings of the clock are 2024-06-09 23:59:59.999, the others 2024-06-10
00:00:00.000. -/
def midnightPasses : Clock := fun i => if i < 3 then 1717957799999 else 1717957800000

/-- The renders of a session that starts at 23:59 and has its tenth render at
00:01, the latest first. -/
def rendersOverMidnight : List Clock :=
  [steady afterMidnight, steady beforeMidnight, steady beforeMidnight, steady beforeMidnight,
   steady beforeMidnight, steady beforeMidnight, steady beforeMidnight, steady beforeMidnight,
   steady beforeMidnight]

/-- The state on the Confirm step, nothing pending. -/
def readySys : Sys := ⟨readyState, false, false, []⟩

/-- The state after a click on `Confirm Booking`, the request outstanding. -/
def submittedSys : Sys :=
  ⟨submitBegin readyState, false, false,
    [meetingDataOf readyState lawyerAsha "asha@example.com" (some 1718028000000)
      1718031600000]⟩

/-- The state once `GET /users` has answered. -/
def lawyersLoadedState : WizardState :=
  { initialState with
    lawyers := [lawyerAsha, lawyerNoMail]
    loading := false }

/-- The state once both requests have answered. -/
def loadedState : WizardState :=
  { lawyersLoadedState with
    formData := ⟨"", "", "dana@example.com", "Dana", ""⟩ }

/-- The loaded state with a lawyer selected. -/
def lawyerChosenState : WizardState :=
  { loadedState with
    selectedLawyer := some "L1" }

/-- The state on step 2 with a date selected. -/
def dateChosenState : WizardState :=
  { lawyerChosenState with
    currentStep := 2
    selectedDate := "2024-06-10" }

/-- A server that refuses every request. -/
def postNetworkError : MeetingData → PostOutcome :=
  fun _ => .rejected ⟨some "Network Error"⟩

/-- A server that accepts every request. -/
def postAccepts : MeetingData → PostOutcome :=
  fun _ => .resolved (some ⟨some "https://calendar.example/e/1"⟩)

/-! ## Lemmas on the handlers -/

theorem truthy_iff (s : String) : truthy s = true ↔ s ≠ "" := by
  simp [truthy]

theorem truthy_false_iff (s : String) : truthy s = false ↔ s = "" := by
  simp [truthy]

theorem orDefault_ne_empty (v : Option String) (d : String) (hd : d ≠ "") :
    orDefault v d ≠ "" := by
  unfold orDefault
  cases v with
  | none => exact hd
  | some m =>
    by_cases hm : truthy m = true
    · simp only [hm, if_true]
      exact (truthy_iff m).1 hm
    · simp only [hm]
      exact hd

theorem truthyOpt_orDefault (v : Option String) (d : String) (hd : d ≠ "") :
    truthyOpt (some (orDefault v d)) = true := by
  simp only [truthyOpt]
  exact (truthy_iff _).2 (orDefault_ne_empty v d hd)

theorem handleSubmit_state_of_failure (host : Host) (post : MeetingData → PostOutcome)
    (s : WizardState) (e : JsError) (h : submitFailure host post s = some e) :
    (handleSubmit host post s).state = submitSettle (.error e) (submitBegin s) := by
  unfold submitFailure at h
  unfold handleSubmit
  cases hb : buildMeetingData host s with
  | error err =>
    simp only [hb, Option.some.injEq] at h
    simp only [h]
  | ok md =>
    simp only [hb] at h
    simp only
    cases hp : post md with
    | resolved data => simp [hp] at h
    | rejected err =>
      simp only [hp, Option.some.injEq] at h
      simp only [h]

theorem submitSettle_error_eq (e : JsError) (s : WizardState) :
    submitSettle (.error e) (submitBegin s) =
      { s with error := some (orDefault e.message "Failed to book consultation"),
               isSubmitting := false } := by
  rfl

/-! ## C1 -/

/-- C1 (as stated, refuted): on the Confirm step, with `loading = false` and
`bookingComplete = false`, a rejected `POST /consultation` leaves a state whose
view is the full-page error view, not the step-4 view, and that view has no
submit control. -/
theorem C1_counterexample :
    readyState.currentStep = 4 ∧ readyState.loading = false ∧
    readyState.bookingComplete = false ∧
    submitFailure indiaHost postNetworkError readyState = some ⟨some "Network Error"⟩ ∧
    render indiaHost (steady 0) (handleSubmit indiaHost postNetworkError readyState).state
      = View.errorPage "Network Error" ∧
    (render indiaHost (steady 0) (handleSubmit indiaHost postNetworkError readyState).state).submitDisabled
      ≠ some false := by
  decide

/-- C1 (amended): for every state on step 4 with `loading = false` and
`bookingComplete = false`, the state that `handleSubmit` leaves behind on
failure is still on step 4 with `isSubmitting = false`, and its view is the
full-page error view showing the message; that view offers no submit control. -/
theorem C1_failed_submit_shows_error_page (host : Host) (clock : Clock) (post : MeetingData → PostOutcome)
    (s : WizardState) (e : JsError)
    (hstep : s.currentStep = 4) (hload : s.loading = false) (hdone : s.bookingComplete = false)
    (hfail : submitFailure host post s = some e) :
    (handleSubmit host post s).state.currentStep = 4 ∧
    (handleSubmit host post s).state.isSubmitting = false ∧
    (handleSubmit host post s).state.bookingComplete = false ∧
    render host clock (handleSubmit host post s).state
      = View.errorPage (orDefault e.message "Failed to book consultation") ∧
    (render host clock (handleSubmit host post s).state).submitDisabled = none := by
  rw [handleSubmit_state_of_failure host post s e hfail, submitSettle_error_eq]
  have ht := truthyOpt_orDefault e.message "Failed to book consultation" (by decide)
  refine ⟨hstep, rfl, hdone, ?_, ?_⟩
  · simp only [render, hload, ht, if_true, Bool.false_eq_true, if_false, Option.getD_some]
  · simp only [render, hload, ht, if_true, Bool.false_eq_true, if_false, View.submitDisabled]

theorem C1_failed_submit_shows_error_page_witness :
    render indiaHost (steady 0) (handleSubmit indiaHost postNetworkError readyState).state
      = View.errorPage "Network Error" :=
  (C1_failed_submit_shows_error_page indiaHost (steady 0) postNetworkError readyState ⟨some "Network Error"⟩
    (by decide) (by decide) (by decide) (by decide)).2.2.2.1

/-! ## C2 -/

/-- C2: when `handleSubmit` fails with the exception `e` (thrown before the
request, or the rejection of the request), the state it leaves is the state
it started from with `isSubmitting = false` and `error` set to the message of
`e`, or to `Failed to book consultation` when `e` has no message or an empty
one; `currentStep`, `bookingComplete`, `calendarEventInfo`, the selection and
`formData` are unchanged. -/
theorem C2_failed_submit_state (host : Host) (post : MeetingData → PostOutcome)
    (s : WizardState) (e : JsError) (hfail : submitFailure host post s = some e) :
    (handleSubmit host post s).state =
      { s with error := some (orDefault e.message "Failed to book consultation"),
               isSubmitting := false } ∧
    (handleSubmit host post s).state.currentStep = s.currentStep ∧
    (handleSubmit host post s).state.bookingComplete = s.bookingComplete ∧
    (s.bookingComplete = false → (handleSubmit host post s).state.bookingComplete = false) ∧
    (handleSubmit host post s).state.calendarEventInfo = s.calendarEventInfo ∧
    (handleSubmit host post s).state.isSubmitting = false ∧
    (handleSubmit host post s).state.selectedLawyer = s.selectedLawyer ∧
    (handleSubmit host post s).state.selectedDate = s.selectedDate ∧
    (handleSubmit host post s).state.selectedTime = s.selectedTime ∧
    (handleSubmit host post s).state.formData = s.formData ∧
    (∀ m, e.message = some m → m ≠ "" → (handleSubmit host post s).state.error = some m) ∧
    (e.message = none ∨ e.message = some "" →
      (handleSubmit host post s).state.error = some "Failed to book consultation") := by
  rw [handleSubmit_state_of_failure host post s e hfail, submitSettle_error_eq]
  refine ⟨rfl, rfl, rfl, fun h => h, rfl, rfl, rfl, rfl, rfl, rfl, ?_, ?_⟩
  · intro m hm hne
    simp only [hm, orDefault, (truthy_iff m).2 hne, if_true]
  · intro h
    rcases h with h | h
    · simp only [h, orDefault]
    · simp only [h, orDefault]
      rfl

theorem C2_failed_submit_state_witness :
    (handleSubmit indiaHost postNetworkError readyState).state =
      { readyState with error := some "Network Error", isSubmitting := false } :=
  (C2_failed_submit_state indiaHost postNetworkError readyState ⟨some "Network Error"⟩
    (by decide)).1

/-! ## C3 -/

theorem render_wizard (host : Host) (clock : Clock) (s : WizardState)
    (hload : s.loading = false) (herr : truthyOpt s.error = false)
    (hdone : s.bookingComplete = false) :
    render host clock s =
      match renderStep host clock s with
      | .ok body => .wizard s.currentStep body
      | .error err => .renderError err := by
  simp [render, hload, herr, hdone]

/-- C3: while the wizard is on screen (`loading = false`, no error, booking
not complete), the Continue control of step 1 is disabled iff `selectedLawyer`
is null, that of step 2 iff `selectedDate` or `selectedTime` is empty, that of
step 3 iff `formData.name` or `formData.email` is empty; a click on an enabled
Continue on steps 1-3 moves `currentStep` to `currentStep + 1` and changes
nothing else, and a click on a disabled one changes nothing. -/
theorem C3_continue_guard (host : Host) (clock : Clock) (s : WizardState)
    (hload : s.loading = false) (herr : truthyOpt s.error = false)
    (hdone : s.bookingComplete = false) :
    (s.currentStep = 1 →
      ∃ d, (render host clock s).continueDisabled = some d ∧ (d = true ↔ s.selectedLawyer = none)) ∧
    (s.currentStep = 2 →
      ∃ d, (render host clock s).continueDisabled = some d ∧
        (d = true ↔ s.selectedDate = "" ∨ s.selectedTime = "")) ∧
    (s.currentStep = 3 →
      ∃ d, (render host clock s).continueDisabled = some d ∧
        (d = true ↔ s.formData.name = "" ∨ s.formData.email = "")) ∧
    ((render host clock s).continueDisabled = some false →
      clickContinue host clock s = { s with currentStep := s.currentStep + 1 }) ∧
    ((render host clock s).continueDisabled = some true → clickContinue host clock s = s) := by
  rw [render_wizard host clock s hload herr hdone]
  refine ⟨?_, ?_, ?_, ?_, ?_⟩
  · intro h1
    refine ⟨s.selectedLawyer == none, ?_, ?_⟩
    · simp [renderStep, h1, View.continueDisabled]
    · cases s.selectedLawyer <;> simp
  · intro h2
    refine ⟨!truthy s.selectedDate || !truthy s.selectedTime, ?_, ?_⟩
    · simp [renderStep, h2, View.continueDisabled]
    · simp [truthy]
  · intro h3
    refine ⟨!truthy s.formData.name || !truthy s.formData.email, ?_, ?_⟩
    · simp [renderStep, h3, View.continueDisabled]
    · simp [truthy]
  · intro h
    rw [← render_wizard host clock s hload herr hdone] at h
    simp [clickContinue, h, handleNextStep]
  · intro h
    rw [← render_wizard host clock s hload herr hdone] at h
    simp [clickContinue, h]

theorem C3_continue_guard_witness :
    (clickContinue indiaHost (steady 0) { readyState with currentStep := 2 }).currentStep = 3 ∧
    clickContinue indiaHost (steady 0) { readyState with currentStep := 2, selectedTime := "" }
      = { readyState with currentStep := 2, selectedTime := "" } :=
  ⟨by
    rw [(C3_continue_guard indiaHost (steady 0) { readyState with currentStep := 2 }
      (by decide) (by decide) (by decide)).2.2.2.1 (by decide)]
    decide,
   (C3_continue_guard indiaHost (steady 0) { readyState with currentStep := 2, selectedTime := "" }
      (by decide) (by decide) (by decide)).2.2.2.2 (by decide)⟩

/-! ## C4 -/

/-- C4: after `GET /users` has returned the list `users`, the `lawyers` of the
state are exactly the records of `users` whose role is the string `lawyer`, in
their original order; each of them has that role, every record of `users` with
that role is among them, and the cards of step 1 are these records, one card
each, in the same order. -/
theorem C4_lawyers_are_filtered (host : Host) (clock : Clock) (users : List User) (s : WizardState) :
    (fetchLawyers (.ok users) s).lawyers = users.filter (fun u => u.role == "lawyer") ∧
    List.Sublist (fetchLawyers (.ok users) s).lawyers users ∧
    (∀ u, u ∈ (fetchLawyers (.ok users) s).lawyers ↔ u ∈ users ∧ u.role = "lawyer") ∧
    (fetchLawyers (.ok users) s).loading = false ∧
    (truthyOpt s.error = false → s.bookingComplete = false → s.currentStep = 1 →
      render host clock (fetchLawyers (.ok users) s) =
        .wizard 1 (.selectLawyer
          ((users.filter (fun u => u.role == "lawyer")).map
            (lawyerCard (fetchLawyers (.ok users) s)))
          (s.selectedLawyer == none)) ∧
      ((users.filter (fun u => u.role == "lawyer")).map
          (lawyerCard (fetchLawyers (.ok users) s))).map LawyerCard.id
        = (users.filter (fun u => u.role == "lawyer")).map User._id) := by
  refine ⟨rfl, List.filter_sublist _, ?_, rfl, ?_⟩
  · intro u
    simp [fetchLawyers, fetchLawyersResolved, fetchLawyersBegin, List.mem_filter]
  · intro herr hdone hstep
    constructor
    · rw [render_wizard host clock (fetchLawyers (.ok users) s) rfl herr hdone]
      simp [renderStep, fetchLawyers, fetchLawyersResolved, fetchLawyersBegin, hstep]
    · simp [List.map_map, Function.comp_def, lawyerCard]

theorem C4_lawyers_are_filtered_witness :
    (fetchLawyers (.ok [clientBen, lawyerAsha, lawyerNoMail]) initialState).lawyers
      = [lawyerAsha, lawyerNoMail] ∧
    render indiaHost (steady 0) (fetchLawyers (.ok [clientBen, lawyerAsha, lawyerNoMail]) initialState)
      = .wizard 1 (.selectLawyer
          [⟨"L1", "Asha Rao", "/api/placeholder/64/64", "Family Law", false⟩,
           ⟨"L3", "Chen Li", "/api/placeholder/64/64", "Legal Consultant", false⟩] true) :=
  ⟨(C4_lawyers_are_filtered indiaHost (steady 0) [clientBen, lawyerAsha, lawyerNoMail] initialState).1.trans
      (by decide),
   ((C4_lawyers_are_filtered indiaHost (steady 0) [clientBen, lawyerAsha, lawyerNoMail] initialState).2.2.2.2
      (by decide) (by decide) (by decide)).1.trans (by decide)⟩

/-! ## C5 -/

theorem digitChar_spec (k : Nat) :
    (digitChar k).isDigit = true ∧ digitVal (digitChar k) = k % 10 := by
  unfold digitChar
  have h : k % 10 < 10 := Nat.mod_lt _ (by decide)
  generalize k % 10 = r at h
  interval_cases r <;> decide

theorem padDigits_two (n : Nat) : padDigits 2 n = [digitChar (n / 10), digitChar n] := by
  simp [padDigits]

theorem padDigits_two_isDigit (n : Nat) : ∀ c ∈ padDigits 2 n, c.isDigit = true := by
  intro c hc
  rw [padDigits_two] at hc
  simp only [List.mem_cons, List.mem_singleton, List.not_mem_nil, or_false] at hc
  rcases hc with rfl | rfl
  · exact (digitChar_spec _).1
  · exact (digitChar_spec _).1

theorem parseInt_padDigits_two (n : Nat) (h : n < 100) : parseInt (padDigits 2 n) = n := by
  rw [padDigits_two]
  simp only [parseInt, List.foldl_cons, List.foldl_nil, (digitChar_spec _).2]
  omega

theorem matchTimeAt_label (hs ms : List Char) (pm : Bool) (rest : List Char)
    (hhs : hs ≠ []) (hms : ms ≠ [])
    (hd : ∀ c ∈ hs, c.isDigit = true) (md : ∀ c ∈ ms, c.isDigit = true) :
    matchTimeAt (hs ++ ':' :: (ms ++ ' ' :: (if pm then 'P' else 'A') :: 'M' :: rest))
      = some ⟨hs, ms, pm⟩ := by
  have hcolon : ¬ (':' : Char).isDigit = true := by decide
  have hsp : ¬ (' ' : Char).isDigit = true := by decide
  have e1 : (hs ++ ':' :: (ms ++ ' ' :: (if pm then 'P' else 'A') :: 'M' :: rest)).takeWhile
      Char.isDigit = hs := by
    rw [List.takeWhile_append_of_pos hd, List.takeWhile_cons_of_neg hcolon, List.append_nil]
  have e2 : (hs ++ ':' :: (ms ++ ' ' :: (if pm then 'P' else 'A') :: 'M' :: rest)).dropWhile
      Char.isDigit = ':' :: (ms ++ ' ' :: (if pm then 'P' else 'A') :: 'M' :: rest) := by
    rw [List.dropWhile_append_of_pos hd, List.dropWhile_cons_of_neg hcolon]
  have e3 : (ms ++ ' ' :: (if pm then 'P' else 'A') :: 'M' :: rest).takeWhile Char.isDigit
      = ms := by
    rw [List.takeWhile_append_of_pos md, List.takeWhile_cons_of_neg hsp, List.append_nil]
  have e4 : (ms ++ ' ' :: (if pm then 'P' else 'A') :: 'M' :: rest).dropWhile Char.isDigit
      = ' ' :: (if pm then 'P' else 'A') :: 'M' :: rest := by
    rw [List.dropWhile_append_of_pos md, List.dropWhile_cons_of_neg hsp]
  have n1 : hs.isEmpty = false := by cases hs <;> simp_all
  have n2 : ms.isEmpty = false := by cases ms <;> simp_all
  unfold matchTimeAt
  simp only [e1, e2, e3, e4, n1, n2]
  cases pm <;> simp

theorem searchTime_of_matchTimeAt (cs : List Char) (p : TimeParts)
    (h : matchTimeAt cs = some p) : searchTime cs = some p := by
  cases cs with
  | nil => simp [matchTimeAt] at h
  | cons c cs => simp only [searchTime, h]

theorem parseTimeLabel_timeLabel (hh mm : Nat) (pm : Bool) :
    parseTimeLabel (timeLabel hh mm pm)
      = some (to24Hour ⟨padDigits 2 hh, padDigits 2 mm, pm⟩) := by
  have hne : ∀ n, padDigits 2 n ≠ [] := by
    intro n
    rw [padDigits_two]
    exact List.cons_ne_nil _ _
  have hm := matchTimeAt_label (padDigits 2 hh) (padDigits 2 mm) pm [] (hne hh) (hne mm)
    (padDigits_two_isDigit hh) (padDigits_two_isDigit mm)
  have hs := searchTime_of_matchTimeAt _ _ hm
  simp only [parseTimeLabel, timeMatch, timeLabel, String.toList]
  rw [hs]
  rfl

/-- C5: for every label `hh:mm AM` or `hh:mm PM` with `1 ≤ hh ≤ 12` and
`0 ≤ mm ≤ 59`, `convertToISODateTime` parses the minute `mm` and the hour
`hh mod 12` for AM, `hh mod 12 + 12` for PM, which is at most 23; `12:00 AM`
gives 0, `12:00 PM` 12, `01:00 PM` 13, `11:00 AM` 11, and the seven slot labels
give the hours 9, 10, 11, 13, 14, 15, 16 with minute 0. -/
theorem C5_time_label_parsing :
    (∀ hh mm : Nat, ∀ pm : Bool, 1 ≤ hh → hh ≤ 12 → mm ≤ 59 →
      parseTimeLabel (timeLabel hh mm pm) = some (hh % 12 + (if pm then 12 else 0), mm) ∧
      hh % 12 + (if pm then 12 else 0) ≤ 23) ∧
    timeLabel 12 0 false = "12:00 AM" ∧ parseTimeLabel "12:00 AM" = some (0, 0) ∧
    timeLabel 12 0 true = "12:00 PM" ∧ parseTimeLabel "12:00 PM" = some (12, 0) ∧
    timeLabel 1 0 true = "01:00 PM" ∧ parseTimeLabel "01:00 PM" = some (13, 0) ∧
    timeLabel 11 0 false = "11:00 AM" ∧ parseTimeLabel "11:00 AM" = some (11, 0) ∧
    availableTimeSlots = [timeLabel 9 0 false, timeLabel 10 0 false, timeLabel 11 0 false,
      timeLabel 1 0 true, timeLabel 2 0 true, timeLabel 3 0 true, timeLabel 4 0 true] ∧
    availableTimeSlots.map parseTimeLabel =
      [some (9, 0), some (10, 0), some (11, 0), some (13, 0), some (14, 0), some (15, 0),
       some (16, 0)] := by
  refine ⟨?_, by decide, by decide, by decide, by decide, by decide, by decide, by decide,
    by decide, by decide, by decide⟩
  intro hh mm pm h1 h12 h59
  rw [parseTimeLabel_timeLabel]
  simp only [to24Hour, parseInt_padDigits_two hh (by omega), parseInt_padDigits_two mm (by omega)]
  have hour : (if ¬ pm = true ∧ (if pm = true ∧ hh < 12 then hh + 12 else hh) = 12 then 0
      else (if pm = true ∧ hh < 12 then hh + 12 else hh))
      = hh % 12 + (if pm = true then 12 else 0) := by
    cases pm
    · simp only [Bool.false_eq_true, false_and, if_false, not_false_eq_true, true_and]
      split_ifs <;> omega
    · simp only [true_and, not_true_eq_false, false_and, if_false, if_true]
      split_ifs <;> omega
  rw [hour]
  refine ⟨rfl, ?_⟩
  split_ifs <;> omega

theorem C5_time_label_parsing_witness :
    parseTimeLabel (timeLabel 12 30 true) = some (12, 30) ∧
    parseTimeLabel (timeLabel 7 5 false) = some (7, 5) :=
  ⟨(C5_time_label_parsing.1 12 30 true (by decide) (by decide) (by decide)).1,
   (C5_time_label_parsing.1 7 5 false (by decide) (by decide) (by decide)).1⟩

/-! ## Lemmas on time values -/

theorem time_decompose (t : Int) :
    makeDate (day t) (makeTime (hourFromTime t) (minFromTime t) (secFromTime t) (msFromTime t))
      = t := by
  simp only [makeDate, day, makeTime, hourFromTime, minFromTime, secFromTime, msFromTime,
    msPerDay, msPerHour, msPerMinute]
  omega

theorem timeClip_of_bounds (t : Int) (h1 : -maxTimeValue ≤ t) (h2 : t ≤ maxTimeValue) :
    timeClip t = some t := by
  simp [timeClip, h1, h2]

theorem timeClip_eq_some (t u : Int) (h : timeClip t = some u) :
    u = t ∧ -maxTimeValue ≤ t ∧ t ≤ maxTimeValue := by
  unfold timeClip at h
  split_ifs at h with hc
  simp only [Option.some.injEq] at h
  exact ⟨h.symm, hc.1, hc.2⟩

theorem localTime_fixed (tz t : Int) :
    localTime (Zone.fixed tz) t = t + tz * msPerMinute := rfl

theorem utcOfLocal_fixed (tz t : Int) :
    utcOfLocal (Zone.fixed tz) t = t - tz * msPerMinute := rfl

theorem offsetAtFrom_bounds (rs : List (Int × Int)) :
    ∀ o t : Int, -1440 ≤ o ∧ o ≤ 1440 → (∀ r ∈ rs, -1440 ≤ r.2 ∧ r.2 ≤ 1440) →
      -1440 ≤ offsetAtFrom o rs t ∧ offsetAtFrom o rs t ≤ 1440 := by
  induction rs with
  | nil => intro o t ho _; exact ho
  | cons r rest ih =>
    intro o t ho hr
    obtain ⟨at2, o2⟩ := r
    simp only [offsetAtFrom]
    split_ifs
    · exact ho
    · exact ih o2 t (hr (at2, o2) (List.mem_cons_self _ _))
        (fun r2 h2 => hr r2 (List.mem_cons_of_mem _ h2))

theorem offsetOfLocalFrom_bounds (rs : List (Int × Int)) :
    ∀ o t : Int, -1440 ≤ o ∧ o ≤ 1440 → (∀ r ∈ rs, -1440 ≤ r.2 ∧ r.2 ≤ 1440) →
      -1440 ≤ offsetOfLocalFrom o rs t ∧ offsetOfLocalFrom o rs t ≤ 1440 := by
  induction rs with
  | nil => intro o t ho _; exact ho
  | cons r rest ih =>
    intro o t ho hr
    obtain ⟨at2, o2⟩ := r
    simp only [offsetOfLocalFrom]
    split_ifs
    · exact ho
    · exact ih o2 t (hr (at2, o2) (List.mem_cons_self _ _))
        (fun r2 h2 => hr r2 (List.mem_cons_of_mem _ h2))

/-- In a zone whose offsets are within a day of UTC the local reading of an
instant is within a day of it. -/
theorem localTime_bounds (z : Zone) (hz : z.Bounded) (t : Int) :
    t - msPerDay ≤ localTime z t ∧ localTime z t ≤ t + msPerDay := by
  have h := offsetAtFrom_bounds z.transitions z.base t hz.1 hz.2
  simp only [localTime, Zone.offsetAt, msPerDay, msPerMinute]
  omega

theorem utcOfLocal_bounds (z : Zone) (hz : z.Bounded) (t : Int) :
    t - msPerDay ≤ utcOfLocal z t ∧ utcOfLocal z t ≤ t + msPerDay := by
  have h := offsetOfLocalFrom_bounds z.transitions z.base t hz.1 hz.2
  simp only [utcOfLocal, Zone.offsetOfLocal, msPerDay, msPerMinute]
  omega

theorem fixed_bounded (tz : Int) (h1 : -1440 ≤ tz) (h2 : tz ≤ 1440) : (Zone.fixed tz).Bounded :=
  ⟨⟨h1, h2⟩, fun _ h => absurd h (List.not_mem_nil _)⟩

/-- Call `setMinutes(getMinutes() + k)` moves the local reading by `k`
minutes. -/
theorem setMinutes1_getMinutes_add (z : Zone) (t k : Int) :
    setMinutes1 z (some t) ((getMinutes z (some t)).map fun m => m + k)
      = timeClip (utcOfLocal z (localTime z t + k * msPerMinute)) := by
  simp only [setMinutes1, getMinutes, Option.map_some']
  congr 2
  have h := time_decompose (localTime z t)
  generalize localTime z t = lt at h ⊢
  simp only [makeDate, makeTime, msPerDay, msPerHour, msPerMinute] at h ⊢
  omega

/-- Call `setHours(getHours() + k)` moves the local reading by `k` hours. -/
theorem setHours1_getHours_add (z : Zone) (t k : Int) :
    setHours1 z (some t) ((getHours z (some t)).map fun h => h + k)
      = timeClip (utcOfLocal z (localTime z t + k * msPerHour)) := by
  simp only [setHours1, getHours, Option.map_some']
  congr 2
  have h := time_decompose (localTime z t)
  generalize localTime z t = lt at h ⊢
  simp only [makeDate, makeTime, msPerDay, msPerHour, msPerMinute] at h ⊢
  omega

/-- In a zone with a fixed offset `setMinutes(getMinutes() + k)` moves the
instant by `k` minutes. -/
theorem setMinutes1_fixed (tz t k : Int) :
    setMinutes1 (Zone.fixed tz) (some t) ((getMinutes (Zone.fixed tz) (some t)).map fun m => m + k)
      = timeClip (t + k * msPerMinute) := by
  rw [setMinutes1_getMinutes_add, utcOfLocal_fixed, localTime_fixed]
  congr 1
  ring

/-- In a zone with a fixed offset `setHours(getHours() + k)` moves the instant
by `k` hours. -/
theorem setHours1_fixed (tz t k : Int) :
    setHours1 (Zone.fixed tz) (some t) ((getHours (Zone.fixed tz) (some t)).map fun h => h + k)
      = timeClip (t + k * msPerHour) := by
  rw [setHours1_getHours_add, utcOfLocal_fixed, localTime_fixed]
  congr 1
  ring

/-- With a fixed offset of `tz` minutes the local day of midnight UTC of day
`d` is `d + tz / 1440`: the day itself east of UTC, the day before west of
it. -/
theorem setHours4_utc_midnight (tz d hour min : Int) :
    setHours4 (Zone.fixed tz) (some (d * msPerDay)) hour min 0 0
      = timeClip (wallClockInstant tz (d + tz / 1440) hour min) := by
  simp only [setHours4, wallClockInstant, utcOfLocal_fixed, localTime_fixed]
  congr 3
  simp only [day, msPerDay, msPerMinute]
  omega

theorem civilFromDays_year_of_era (doe : Int) (h0 : 0 ≤ doe) (h1 : doe ≤ 146096) :
    0 ≤ (doe - doe / 1460 + doe / 36524 - doe / 146096) / 365 ∧
    (doe - doe / 1460 + doe / 36524 - doe / 146096) / 365 ≤ 399 ∧
    0 ≤ doe - (365 * ((doe - doe / 1460 + doe / 36524 - doe / 146096) / 365)
      + (doe - doe / 1460 + doe / 36524 - doe / 146096) / 365 / 4
      - (doe - doe / 1460 + doe / 36524 - doe / 146096) / 365 / 100) ∧
    doe - (365 * ((doe - doe / 1460 + doe / 36524 - doe / 146096) / 365)
      + (doe - doe / 1460 + doe / 36524 - doe / 146096) / 365 / 4
      - (doe - doe / 1460 + doe / 36524 - doe / 146096) / 365 / 100) ≤ 365 := by
  generalize hyoe : (doe - doe / 1460 + doe / 36524 - doe / 146096) / 365 = yoe
  have hq : doe / 36524 = 0 ∨ doe / 36524 = 1 ∨ doe / 36524 = 2 ∨ doe / 36524 = 3 ∨
      doe / 36524 = 4 := by omega
  have hc : yoe / 100 = 0 ∨ yoe / 100 = 1 ∨ yoe / 100 = 2 ∨ yoe / 100 = 3 ∨
      yoe / 100 = 4 := by omega
  rcases hq with h | h | h | h | h <;> rcases hc with h2 | h2 | h2 | h2 | h2 <;> omega

/-- MakeDay on the year and month of a day, with the day of the month moved
by `k`, is the day number moved by `k`. -/
theorem makeDay_civilFromDays (z k : Int) :
    makeDay (civilFromDays z).1 (civilFromDays z).2.1 ((civilFromDays z).2.2 + k) = z + k := by
  have hb := civilFromDays_year_of_era (z + 719468 - (z + 719468) / 146097 * 146097)
    (by omega) (by omega)
  simp only [makeDay, daysFromCivil, civilFromDays]
  generalize hera : (z + 719468) / 146097 = era at hb ⊢
  generalize hdoe : z + 719468 - era * 146097 = doe at hb ⊢
  generalize hyoe : (doe - doe / 1460 + doe / 36524 - doe / 146096) / 365 = yoe at hb ⊢
  obtain ⟨b1, b2, b3, b4⟩ := hb
  generalize hdoy : doe - (365 * yoe + yoe / 4 - yoe / 100) = doy at b3 b4 ⊢
  have hmp : 0 ≤ (5 * doy + 2) / 153 ∧ (5 * doy + 2) / 153 ≤ 11 := by omega
  generalize hmpe : (5 * doy + 2) / 153 = mp at hmp ⊢
  have e1 : (yoe + era * 400) / 400 = era := by omega
  have e1b : (yoe + era * 400 + 1 - 1) / 400 = era := by
    have : yoe + era * 400 + 1 - 1 = yoe + era * 400 := by ring
    rw [this]
    exact e1
  have e4 : yoe + era * 400 - era * 400 = yoe := by ring
  have e5 : yoe + era * 400 + 1 - 1 - era * 400 = yoe := by ring
  by_cases hlt : mp < 10
  · have e2 : (mp + 3 + 9) % 12 = mp := by omega
    have e3 : ¬ (mp + 3 ≤ 2) := by omega
    simp only [hlt, if_true, e3, if_false, e1, e2, e4]
    omega
  · have e2 : (mp - 9 + 9) % 12 = mp := by omega
    have e3 : mp - 9 ≤ 2 := by omega
    simp only [hlt, if_false, e3, if_true, e1b, e2, e5]
    omega

/-- Call `setDate(getDate() + k)` moves the local reading by `k` days. -/
theorem setDate_getDate_add (z : Zone) (t k : Int) :
    setDate z (some t) ((getDate z (some t)).map fun d => d + k)
      = timeClip (utcOfLocal z (localTime z t + k * msPerDay)) := by
  simp only [setDate, getDate, Option.map_some', makeDay_civilFromDays]
  congr 2
  generalize localTime z t = lt
  simp only [makeDate, day, msPerDay]
  omega

/-- In a zone with a fixed offset `setDate(getDate() + k)` moves the instant
by `k` days. -/
theorem setDate_fixed (tz t k : Int) :
    setDate (Zone.fixed tz) (some t) ((getDate (Zone.fixed tz) (some t)).map fun d => d + k)
      = timeClip (t + k * msPerDay) := by
  rw [setDate_getDate_add, utcOfLocal_fixed, localTime_fixed]
  congr 1
  ring

theorem isDigit_digitVal (c : Char) (h : c.isDigit = true) : digitVal c ≤ 9 := by
  simp only [Char.isDigit, Bool.and_eq_true, decide_eq_true_eq] at h
  have h3 : c.val.toNat ≤ 57 := h.2
  unfold digitVal Char.toNat
  omega

theorem daysInMonth_le (y m : Int) : daysInMonth y m ≤ 31 := by
  unfold daysInMonth
  split_ifs <;> omega

theorem daysFromCivil_bound (y m d : Int) (hy0 : 0 ≤ y) (hy : y ≤ 9999)
    (hd1 : 1 ≤ d) (hd : d ≤ 31) :
    -1000000 ≤ daysFromCivil y m d ∧ daysFromCivil y m d ≤ 4000000 := by
  simp only [daysFromCivil]
  split_ifs <;> omega

/-- A date string that parses denotes a day of the years 0 to 9999. -/
theorem parseDateOnly_bound (str : String) (d : Int) (h : parseDateOnly str = some d) :
    -1000000 ≤ d ∧ d ≤ 4000000 := by
  unfold parseDateOnly at h
  split at h
  · rename_i y1 y2 y3 y4 m1 m2 d1 d2 _
    split_ifs at h with hdig
    simp only at h
    split_ifs at h with hval
    simp only [Option.some.injEq] at h
    subst h
    simp only [List.all_cons, List.all_nil, Bool.and_true, Bool.and_eq_true] at hdig
    obtain ⟨h1, h2, h3, h4, -, -, -, -⟩ := hdig
    have b1 := isDigit_digitVal y1 h1
    have b2 := isDigit_digitVal y2 h2
    have b3 := isDigit_digitVal y3 h3
    have b4 := isDigit_digitVal y4 h4
    have hy : parseInt [y1, y2, y3, y4] ≤ 9999 := by
      simp only [parseInt, List.foldl_cons, List.foldl_nil]
      omega
    have hdm := daysInMonth_le (parseInt [y1, y2, y3, y4] : Int) (parseInt [m1, m2] : Int)
    exact daysFromCivil_bound _ _ _ (by omega) (by omega) hval.2.2.1 (by omega)
  · simp at h

/-- What `convertToISODateTime` returns for a date string that parses to the
day number `d` and a time string that parses to `hour:min`: 330 minutes after
the instant at which the local wall clock reads `hour:min` on the local day of
midnight UTC of `d`. -/
theorem convertToISODateTime_value (host : Host) (tz d : Int) (hour min : Nat)
    (dateStr timeStr : String) (hz : host.zone = Zone.fixed tz) (hp : host.Conforms)
    (hd : parseDateOnly dateStr = some d) (ht : parseTimeLabel timeStr = some (hour, min))
    (hh : hour ≤ 23) (hm : min ≤ 59) :
    convertToISODateTime host dateStr timeStr
      = .ok (some (wallClockInstant tz (d + tz / 1440) hour min + 330 * msPerMinute)) := by
  have hb := parseDateOnly_bound dateStr d hd
  have hw1 : -8000000000000000 ≤ wallClockInstant tz (d + tz / 1440) hour min := by
    simp only [wallClockInstant, makeDate, makeTime, msPerDay, msPerHour, msPerMinute]
    omega
  have hw2 : wallClockInstant tz (d + tz / 1440) hour min ≤ 8000000000000000 := by
    simp only [wallClockInstant, makeDate, makeTime, msPerDay, msPerHour, msPerMinute]
    omega
  simp only [convertToISODateTime, ht, newDate, hp.1 dateStr d hd, hz, setHours4_utc_midnight]
  rw [timeClip_of_bounds _ (by simp only [maxTimeValue]; omega) (by simp only [maxTimeValue]; omega)]
  rw [setMinutes1_fixed]
  rw [timeClip_of_bounds _ (by simp only [maxTimeValue, msPerMinute]; omega)
    (by simp only [maxTimeValue, msPerMinute]; omega)]
  rfl

/-- East of UTC (and on UTC) the day is the day of the date string. -/
theorem convertToISODateTime_east (host : Host) (tz d : Int) (hour min : Nat)
    (dateStr timeStr : String) (hz : host.zone = Zone.fixed tz) (hp : host.Conforms)
    (hd : parseDateOnly dateStr = some d) (ht : parseTimeLabel timeStr = some (hour, min))
    (hh : hour ≤ 23) (hm : min ≤ 59) (htz : 0 ≤ tz) (htz2 : tz < 1440) :
    convertToISODateTime host dateStr timeStr
      = .ok (some (wallClockInstant tz d hour min + 330 * msPerMinute)) := by
  rw [convertToISODateTime_value host tz d hour min dateStr timeStr hz hp hd ht hh hm]
  have : tz / 1440 = 0 := by omega
  rw [this, add_zero]

/-- West of UTC the day is the day before the day of the date string. -/
theorem convertToISODateTime_west (host : Host) (tz d : Int) (hour min : Nat)
    (dateStr timeStr : String) (hz : host.zone = Zone.fixed tz) (hp : host.Conforms)
    (hd : parseDateOnly dateStr = some d) (ht : parseTimeLabel timeStr = some (hour, min))
    (hh : hour ≤ 23) (hm : min ≤ 59) (htz : -1440 ≤ tz) (htz2 : tz < 0) :
    convertToISODateTime host dateStr timeStr
      = .ok (some (wallClockInstant tz (d - 1) hour min + 330 * msPerMinute)) := by
  rw [convertToISODateTime_value host tz d hour min dateStr timeStr hz hp hd ht hh hm]
  have : tz / 1440 = -1 := by omega
  rw [this]
  rfl

/-- The parser that reads the date-only form only is one that ECMA-262
allows. -/
theorem strict_conforms (z : Zone) : (Host.strict z).Conforms := by
  refine ⟨?_, ?_⟩
  · intro s d h
    simp only [Host.strict, isoDateParse, h, Option.map_some']
  · intro s t h
    simp only [Host.strict, isoDateParse, Option.map_eq_some'] at h
    obtain ⟨d, hd, rfl⟩ := h
    have hb := parseDateOnly_bound s d hd
    simp only [maxTimeValue, msPerDay]
    omega

/-! ## Lemmas on `handleSubmit` -/

theorem endTimeOf_some (z : Zone) (st : Int) :
    endTimeOf z (some st)
      = toISOString (timeClip (utcOfLocal z (localTime z st + msPerHour))) := by
  have h := setHours1_getHours_add z st 1
  simp only [one_mul] at h
  simp only [endTimeOf, Option.getD_some, h]

theorem endTimeOf_fixed (tz st : Int) :
    endTimeOf (Zone.fixed tz) (some st) = toISOString (timeClip (st + msPerHour)) := by
  rw [endTimeOf_some, utcOfLocal_fixed, localTime_fixed]
  congr 2
  ring

theorem toISOString_timeClip_ok (t u : Int) (h : toISOString (timeClip t) = .ok u) : u = t := by
  unfold timeClip at h
  split_ifs at h
  · simp only [toISOString, Except.ok.injEq] at h
    exact h.symm
  · simp [toISOString] at h

theorem slot_parses (t : String) (h : t ∈ availableTimeSlots) :
    ∃ hour min : Nat, parseTimeLabel t = some (hour, min) ∧ hour ≤ 23 ∧ min ≤ 59 := by
  simp only [availableTimeSlots, List.mem_cons, List.mem_singleton, List.not_mem_nil,
    or_false] at h
  rcases h with rfl | rfl | rfl | rfl | rfl | rfl | rfl
  · exact ⟨9, 0, by decide, by decide, by decide⟩
  · exact ⟨10, 0, by decide, by decide, by decide⟩
  · exact ⟨11, 0, by decide, by decide, by decide⟩
  · exact ⟨13, 0, by decide, by decide, by decide⟩
  · exact ⟨14, 0, by decide, by decide, by decide⟩
  · exact ⟨15, 0, by decide, by decide, by decide⟩
  · exact ⟨16, 0, by decide, by decide, by decide⟩

/-- A time string with a label never yields `null`. -/
theorem convertToISODateTime_label (host : Host) (dateStr timeStr : String) (hm : Nat × Nat)
    (st : Option Int) (ht : parseTimeLabel timeStr = some hm)
    (h : convertToISODateTime host dateStr timeStr = .ok st) : ∃ t, st = some t := by
  simp only [convertToISODateTime, ht] at h
  cases hr : toISOString (setMinutes1 host.zone
      (setHours4 host.zone (newDate host dateStr) hm.1 hm.2 0 0)
      ((getMinutes host.zone (setHours4 host.zone (newDate host dateStr) hm.1 hm.2 0 0)).map
        fun m => m + 330)) with
  | error e => rw [hr] at h; simp [Except.map] at h
  | ok t =>
    rw [hr] at h
    simp only [Except.map, Except.ok.injEq] at h
    exact ⟨t, h.symm⟩

theorem buildMeetingData_ok (host : Host) (s : WizardState) (md : MeetingData)
    (h : buildMeetingData host s = .ok md) :
    ∃ u em st en, getSelectedLawyerInfo s = some u ∧ u.email = some em ∧ em ≠ "" ∧
      convertToISODateTime host s.selectedDate s.selectedTime = .ok st ∧
      endTimeOf host.zone st = .ok en ∧ md = meetingDataOf s u em st en := by
  unfold buildMeetingData at h
  cases hu : getSelectedLawyerInfo s with
  | none => simp [hu] at h
  | some u =>
    simp only [hu] at h
    cases hem : u.email with
    | none => simp [hem, truthyOpt] at h
    | some em =>
      simp only [hem] at h
      by_cases hne : truthyOpt (some em) = true
      · simp only [hne, not_true_eq_false, if_false] at h
        cases hc : convertToISODateTime host s.selectedDate s.selectedTime with
        | error e => simp [hc] at h
        | ok st =>
          simp only [hc] at h
          cases he : endTimeOf host.zone st with
          | error e => simp [he] at h
          | ok en =>
            simp only [he, Except.ok.injEq, Option.getD_some] at h
            refine ⟨u, em, st, en, rfl, hem, ?_, rfl, he, h.symm⟩
            exact (truthy_iff em).1 hne
      · simp [hne] at h

theorem buildMeetingData_of (host : Host) (s : WizardState) (u : User) (em : String)
    (st : Option Int) (en : Int) (hu : getSelectedLawyerInfo s = some u)
    (hem : u.email = some em) (hne : em ≠ "")
    (hc : convertToISODateTime host s.selectedDate s.selectedTime = .ok st)
    (he : endTimeOf host.zone st = .ok en) :
    buildMeetingData host s = .ok (meetingDataOf s u em st en) := by
  have ht : truthyOpt (some em) = true := (truthy_iff em).2 hne
  simp only [buildMeetingData, hu, hem, ht, not_true_eq_false, if_false, hc, he,
    Option.getD_some, meetingDataOf]

theorem handleSubmit_requests (host : Host) (post : MeetingData → PostOutcome) (s : WizardState) :
    (handleSubmit host post s).requests =
      match buildMeetingData host s with
      | .ok md => [md]
      | .error _ => [] := by
  unfold handleSubmit
  cases buildMeetingData host s with
  | error e => rfl
  | ok md =>
    simp only
    cases post md <;> rfl

theorem handleSubmit_state_of_build_error (host : Host) (post : MeetingData → PostOutcome)
    (s : WizardState) (e : JsError) (h : buildMeetingData host s = .error e) :
    handleSubmit host post s = ⟨submitSettle (.error e) (submitBegin s), []⟩ := by
  simp only [handleSubmit, h]

/-! ## C6 -/

/-- C6 (the code on a host west of UTC): five hours west of UTC the date
`2024-06-10` with the label `02:00 PM` gives 330 minutes after 14:00 of
2024-06-09 on the local wall clock, read back locally as 2024-06-09 19:30;
that is one day before 330 minutes after 14:00 of 2024-06-10, the instant
expected for the date `2024-06-10`. -/
theorem C6_west_of_utc_is_a_day_early :
    parseDateOnly "2024-06-10" = some 19884 ∧
    parseTimeLabel "02:00 PM" = some (14, 0) ∧
    convertToISODateTime bogotaHost "2024-06-10" "02:00 PM" = .ok (some 1717979400000) ∧
    wallClockInstant (-300) 19883 14 0 + 330 * msPerMinute = 1717979400000 ∧
    wallClockInstant (-300) 19884 14 0 + 330 * msPerMinute = 1718065800000 ∧
    civilFromDays (day (localTime bogotaHost.zone 1717979400000)) = (2024, 6, 9) ∧
    hourFromTime (localTime bogotaHost.zone 1717979400000) = 19 ∧
    minFromTime (localTime bogotaHost.zone 1717979400000) = 30 := by
  refine ⟨by decide, by decide, rfl, by decide, by decide, by decide, by decide, by decide⟩

/-! ## Dates that stay in range -/

/-- Moving the local reading of an instant by `k` moves the instant by `k`,
up to the two offsets involved. -/
theorem shift_bounds (z : Zone) (hz : z.Bounded) (t k : Int) :
    t + k - 2 * msPerDay ≤ utcOfLocal z (localTime z t + k) ∧
    utcOfLocal z (localTime z t + k) ≤ t + k + 2 * msPerDay := by
  have h1 := localTime_bounds z hz t
  have h2 := utcOfLocal_bounds z hz (localTime z t + k)
  omega

/-- Call `setHours(hour, min, 0, 0)` on an instant well inside the range of
time values gives an instant less than three days away. -/
theorem setHours4_ok (z : Zone) (hz : z.Bounded) (t : Int) (hour min : Nat)
    (hh : hour ≤ 23) (hm : min ≤ 59)
    (h1 : -8000000000000000 ≤ t) (h2 : t ≤ 8000000000000000) :
    ∃ u, setHours4 z (some t) hour min 0 0 = some u ∧
      t - 3 * msPerDay ≤ u ∧ u ≤ t + 3 * msPerDay := by
  have b1 := localTime_bounds z hz t
  have b2 := utcOfLocal_bounds z hz
    (makeDate (day (localTime z t)) (makeTime (hour : Int) (min : Int) 0 0))
  refine ⟨utcOfLocal z (makeDate (day (localTime z t)) (makeTime (hour : Int) (min : Int) 0 0)),
    ?_, ?_, ?_⟩
  · simp only [setHours4]
    apply timeClip_of_bounds
    · generalize localTime z t = lt at b1 b2
      generalize utcOfLocal z (makeDate (day lt) (makeTime (hour : Int) (min : Int) 0 0)) = u at b2
      simp only [makeDate, makeTime, day, msPerDay, msPerHour, msPerMinute, maxTimeValue] at *
      omega
    · generalize localTime z t = lt at b1 b2
      generalize utcOfLocal z (makeDate (day lt) (makeTime (hour : Int) (min : Int) 0 0)) = u at b2
      simp only [makeDate, makeTime, day, msPerDay, msPerHour, msPerMinute, maxTimeValue] at *
      omega
  · generalize localTime z t = lt at b1 b2
    generalize utcOfLocal z (makeDate (day lt) (makeTime (hour : Int) (min : Int) 0 0)) = u at b2
    simp only [makeDate, makeTime, day, msPerDay, msPerHour, msPerMinute] at *
    omega
  · generalize localTime z t = lt at b1 b2
    generalize utcOfLocal z (makeDate (day lt) (makeTime (hour : Int) (min : Int) 0 0)) = u at b2
    simp only [makeDate, makeTime, day, msPerDay, msPerHour, msPerMinute] at *
    omega

/-- The end time of a start time well inside the range of time values (or of
no start time) is an instant. -/
theorem endTimeOf_ok (z : Zone) (hz : z.Bounded) (st : Option Int)
    (h : ∀ t, st = some t → -8000000000000000 ≤ t ∧ t ≤ 8000000000000000) :
    ∃ en, endTimeOf z st = .ok en := by
  have key : ∀ t : Int, -8000000000000000 ≤ t → t ≤ 8000000000000000 →
      ∃ en, endTimeOf z (some t) = .ok en := by
    intro t h1 h2
    have hb := shift_bounds z hz t msPerHour
    refine ⟨utcOfLocal z (localTime z t + msPerHour), ?_⟩
    rw [endTimeOf_some, timeClip_of_bounds]
    · rfl
    · simp only [maxTimeValue, msPerDay, msPerHour] at *
      omega
    · simp only [maxTimeValue, msPerDay, msPerHour] at *
      omega
  cases st with
  | none => exact key 0 (by decide) (by decide)
  | some t => exact key t (h t rfl).1 (h t rfl).2

/-- With a date well inside the range of time values and a label whose hour
and minute are in range (or no label at all) neither `convertToISODateTime`
nor the computation of the end time throws. -/
theorem conversion_succeeds_of_date (host : Host) (hz : host.zone.Bounded) (t : Int)
    (dateStr timeStr : String) (hdate : newDate host dateStr = some t)
    (h1 : -7000000000000000 ≤ t) (h2 : t ≤ 7000000000000000)
    (htime : ∀ hour min, parseTimeLabel timeStr = some (hour, min) → hour ≤ 23 ∧ min ≤ 59) :
    ∃ st en, convertToISODateTime host dateStr timeStr = .ok st ∧
      endTimeOf host.zone st = .ok en := by
  cases ht : parseTimeLabel timeStr with
  | none =>
    obtain ⟨en, he⟩ := endTimeOf_ok host.zone hz none (by intro t h; cases h)
    exact ⟨none, en, by simp only [convertToISODateTime, ht], he⟩
  | some hm =>
    obtain ⟨hour, min⟩ := hm
    obtain ⟨hh, hmin⟩ := htime hour min ht
    obtain ⟨u, hu, u1, u2⟩ := setHours4_ok host.zone hz t hour min hh hmin
      (by omega) (by omega)
    have hb := shift_bounds host.zone hz u (330 * msPerMinute)
    have hc : convertToISODateTime host dateStr timeStr
        = .ok (some (utcOfLocal host.zone (localTime host.zone u + 330 * msPerMinute))) := by
      simp only [convertToISODateTime, ht, hdate, hu, setMinutes1_getMinutes_add]
      rw [timeClip_of_bounds]
      · rfl
      · simp only [maxTimeValue, msPerDay, msPerMinute] at *
        omega
      · simp only [maxTimeValue, msPerDay, msPerMinute] at *
        omega
    obtain ⟨en, he⟩ := endTimeOf_ok host.zone hz
      (some (utcOfLocal host.zone (localTime host.zone u + 330 * msPerMinute)))
      (by
        intro t2 ht2
        simp only [Option.some.injEq] at ht2
        subst ht2
        simp only [msPerDay, msPerMinute] at *
        omega)
    exact ⟨_, en, hc, he⟩

/-- The same for a valid date string of the date-only form. -/
theorem conversion_succeeds (host : Host) (hz : host.zone.Bounded) (hp : host.Conforms)
    (d : Int) (dateStr timeStr : String) (hdate : parseDateOnly dateStr = some d)
    (htime : ∀ hour min, parseTimeLabel timeStr = some (hour, min) → hour ≤ 23 ∧ min ≤ 59) :
    ∃ st en, convertToISODateTime host dateStr timeStr = .ok st ∧
      endTimeOf host.zone st = .ok en := by
  have hb := parseDateOnly_bound _ d hdate
  exact conversion_succeeds_of_date host hz (d * msPerDay) dateStr timeStr
    (hp.1 dateStr d hdate) (by simp only [msPerDay]; omega) (by simp only [msPerDay]; omega)
    htime

/-- The one request of a submission that passes the three checks. -/
theorem handleSubmit_requests_of_valid (host : Host) (hz : host.zone.Bounded)
    (hp : host.Conforms) (post : MeetingData → PostOutcome)
    (s : WizardState) (u : User) (em : String) (d : Int)
    (hu : getSelectedLawyerInfo s = some u) (hem : u.email = some em) (hne : em ≠ "")
    (hdate : parseDateOnly s.selectedDate = some d)
    (htime : ∀ hour min, parseTimeLabel s.selectedTime = some (hour, min) →
      hour ≤ 23 ∧ min ≤ 59) :
    ∃ st en, (handleSubmit host post s).requests = [meetingDataOf s u em st en] := by
  obtain ⟨st, en, hc, he⟩ := conversion_succeeds host hz hp d _ _ hdate htime
  refine ⟨st, en, ?_⟩
  rw [handleSubmit_requests, buildMeetingData_of host s u em st en hu hem hne hc he]

theorem slot_in_range (t : String) (h : t ∈ availableTimeSlots) :
    ∀ hour min, parseTimeLabel t = some (hour, min) → hour ≤ 23 ∧ min ≤ 59 := by
  intro hour min hp
  obtain ⟨h2, m2, hq, hh, hm⟩ := slot_parses t h
  rw [hq] at hp
  simp only [Option.some.injEq, Prod.mk.injEq] at hp
  omega

/-! ## C7 -/

/-- On a host whose zone has one offset all year, every request that
`handleSubmit` sends for a slot label carries a `startTime` that is an instant
and an `endTime` that is that instant plus 3 600 000 ms. -/
theorem endTime_of_fixed_zone (host : Host) (tz : Int) (hz : host.zone = Zone.fixed tz)
    (post : MeetingData → PostOutcome) (s : WizardState)
    (hslot : s.selectedTime ∈ availableTimeSlots) :
    ∀ md ∈ (handleSubmit host post s).requests,
      ∃ st, md.startTime = some st ∧ md.endTime = st + 3600000 := by
  intro md hmd
  rw [handleSubmit_requests] at hmd
  cases hb : buildMeetingData host s with
  | error e => simp [hb] at hmd
  | ok md2 =>
    simp only [hb, List.mem_singleton] at hmd
    subst hmd
    obtain ⟨u, em, st, en, -, -, -, hc, he, rfl⟩ := buildMeetingData_ok host s md hb
    obtain ⟨hour, min, ht, -, -⟩ := slot_parses _ hslot
    obtain ⟨t, rfl⟩ := convertToISODateTime_label host _ _ _ st ht hc
    rw [hz, endTimeOf_fixed] at he
    exact ⟨t, rfl, toISOString_timeClip_ok _ _ he⟩

/-- C7 (the code on the evening the clocks go back): on a host in the zone
Pacific/Easter, for the offered date `2024-04-07` and the slot `04:00 PM`,
`handleSubmit` sends one request; its `startTime` is 2024-04-07T02:30:00Z,
which the local wall clock reads as 21:30 of 6 April, and its `endTime` is
2024-04-07T04:30:00Z, which the local wall clock reads as 22:30, one hour
later on the wall clock and 7 200 000 ms later as an instant, not
3 600 000 ms. -/
theorem C7_end_is_two_hours_after_start :
    easterBooking.selectedTime ∈ availableTimeSlots ∧
    parseDateOnly easterBooking.selectedDate = some 19820 ∧
    (handleSubmit easterHost postAccepts easterBooking).requests =
      [meetingDataOf easterBooking lawyerAsha "asha@example.com"
        (some 1712457000000) 1712464200000] ∧
    (1712464200000 : Int) = 1712457000000 + 7200000 ∧
    (1712464200000 : Int) ≠ 1712457000000 + 3600000 ∧
    hourFromTime (localTime easterZone 1712457000000) = 21 ∧
    minFromTime (localTime easterZone 1712457000000) = 30 ∧
    hourFromTime (localTime easterZone 1712464200000) = 22 ∧
    minFromTime (localTime easterZone 1712464200000) = 30 := by
  refine ⟨by decide, by decide, by decide, by decide, by decide, by decide, by decide,
    by decide, by decide⟩

/-! ## C9 -/

theorem getSelectedLawyerInfo_none_iff (s : WizardState) :
    getSelectedLawyerInfo s = none ↔ ∀ u ∈ s.lawyers, some u._id ≠ s.selectedLawyer := by
  simp [getSelectedLawyerInfo, List.find?_eq_none]

theorem getSelectedLawyerInfo_some (s : WizardState) (u : User)
    (h : getSelectedLawyerInfo s = some u) : u ∈ s.lawyers ∧ some u._id = s.selectedLawyer := by
  unfold getSelectedLawyerInfo at h
  refine ⟨List.mem_of_find?_eq_some h, ?_⟩
  have := List.find?_some h
  simpa using this

/-- C9: if no entry of `lawyers` has `_id` equal to `selectedLawyer`,
`handleSubmit` sends no request, leaves `bookingComplete` as it was and sets
the error to `Selected lawyer not found`; if the matched entry has no email or
an empty one, it sends no request, leaves `bookingComplete` as it was and sets
the error to `Lawyer email not available`; and whenever a request is sent, the
selection is the `_id` of an entry of `lawyers` that has a non-empty email. -/
theorem C9_no_request_without_lawyer_email (host : Host) (post : MeetingData → PostOutcome)
    (s : WizardState) :
    ((∀ u ∈ s.lawyers, some u._id ≠ s.selectedLawyer) →
      (handleSubmit host post s).requests = [] ∧
      (handleSubmit host post s).state.error = some "Selected lawyer not found" ∧
      (handleSubmit host post s).state.bookingComplete = s.bookingComplete ∧
      submitFailure host post s = some ⟨some "Selected lawyer not found"⟩) ∧
    (∀ u, getSelectedLawyerInfo s = some u → (u.email = none ∨ u.email = some "") →
      (handleSubmit host post s).requests = [] ∧
      (handleSubmit host post s).state.error = some "Lawyer email not available" ∧
      (handleSubmit host post s).state.bookingComplete = s.bookingComplete ∧
      submitFailure host post s = some ⟨some "Lawyer email not available"⟩) ∧
    ((handleSubmit host post s).requests ≠ [] →
      ∃ u em, u ∈ s.lawyers ∧ some u._id = s.selectedLawyer ∧
        getSelectedLawyerInfo s = some u ∧ u.email = some em ∧ em ≠ "") := by
  refine ⟨?_, ?_, ?_⟩
  · intro hnone
    have hu := (getSelectedLawyerInfo_none_iff s).2 hnone
    have hb : buildMeetingData host s = .error ⟨some "Selected lawyer not found"⟩ := by
      simp only [buildMeetingData, hu]
    rw [handleSubmit_state_of_build_error host post s _ hb]
    refine ⟨rfl, rfl, rfl, ?_⟩
    simp only [submitFailure, hb]
  · intro u hu hmail
    have ht : truthyOpt u.email = false := by
      rcases hmail with h | h <;> rw [h] <;> rfl
    have hb : buildMeetingData host s = .error ⟨some "Lawyer email not available"⟩ := by
      simp [buildMeetingData, hu, ht]
    rw [handleSubmit_state_of_build_error host post s _ hb]
    refine ⟨rfl, rfl, rfl, ?_⟩
    simp only [submitFailure, hb]
  · intro hreq
    rw [handleSubmit_requests] at hreq
    cases hb : buildMeetingData host s with
    | error e => simp [hb] at hreq
    | ok md =>
      obtain ⟨u, em, st, en, hu, hem, hne, -, -, -⟩ := buildMeetingData_ok host s md hb
      obtain ⟨hmem, hid⟩ := getSelectedLawyerInfo_some s u hu
      exact ⟨u, em, hmem, hid, hu, hem, hne⟩

theorem C9_no_request_without_lawyer_email_witness :
    ((handleSubmit indiaHost postAccepts { readyState with selectedLawyer := some "L9" }).requests = [] ∧
     (handleSubmit indiaHost postAccepts { readyState with selectedLawyer := some "L9" }).state.error
       = some "Selected lawyer not found") ∧
    ((handleSubmit indiaHost postAccepts { readyState with selectedLawyer := some "L3" }).requests = [] ∧
     (handleSubmit indiaHost postAccepts { readyState with selectedLawyer := some "L3" }).state.error
       = some "Lawyer email not available") :=
  ⟨⟨((C9_no_request_without_lawyer_email indiaHost postAccepts
        { readyState with selectedLawyer := some "L9" }).1 (by decide)).1,
    ((C9_no_request_without_lawyer_email indiaHost postAccepts
        { readyState with selectedLawyer := some "L9" }).1 (by decide)).2.1⟩,
   ⟨((C9_no_request_without_lawyer_email indiaHost postAccepts
        { readyState with selectedLawyer := some "L3" }).2.1 lawyerNoMail (by decide)
        (Or.inl rfl)).1,
    ((C9_no_request_without_lawyer_email indiaHost postAccepts
        { readyState with selectedLawyer := some "L3" }).2.1 lawyerNoMail (by decide)
        (Or.inl rfl)).2.1⟩⟩

/-! ## C10 -/

/-- What a view with a submit control says about the state it renders. -/
theorem submitDisabled_some (host : Host) (clock : Clock) (s : WizardState) (d : Bool)
    (h : (render host clock s).submitDisabled = some d) :
    s.loading = false ∧ truthyOpt s.error = false ∧ s.bookingComplete = false ∧
    s.currentStep = 4 ∧ (∃ date, newDate host s.selectedDate = some date) ∧ s.isSubmitting = d := by
  unfold render at h
  by_cases hl : s.loading = true
  · simp [hl, View.submitDisabled] at h
  by_cases he : truthyOpt s.error = true
  · simp [hl, he, View.submitDisabled] at h
  by_cases hc : s.bookingComplete = true
  · simp only [hl, he, hc, Bool.not_true, Bool.false_eq_true, if_false, formatDate] at h
    cases hd : newDate host s.selectedDate <;> simp [hd, View.submitDisabled] at h
  simp only [hl, he, hc, Bool.not_eq_true'] at h
  simp only [Bool.not_eq_true] at hl he hc
  simp only [hc, if_true] at h
  unfold renderStep at h
  by_cases h1 : s.currentStep = 1
  · simp [h1, View.submitDisabled] at h
  by_cases h2 : s.currentStep = 2
  · simp [h2, View.submitDisabled] at h
  by_cases h3 : s.currentStep = 3
  · simp [h3, View.submitDisabled] at h
  by_cases h4 : s.currentStep = 4
  · simp only [h4, formatDate] at h
    cases hd : newDate host s.selectedDate with
    | none => simp [hd, View.submitDisabled] at h
    | some date =>
      simp [hd, View.submitDisabled] at h
      exact ⟨hl, he, hc, h4, ⟨date, rfl⟩, h⟩
  · simp [h1, h2, h3, h4, View.submitDisabled] at h

theorem handleSubmit_state_of_success (host : Host) (post : MeetingData → PostOutcome)
    (s : WizardState) (md : MeetingData) (r : Option EventInfo)
    (hb : buildMeetingData host s = .ok md) (hp : post md = .resolved r) :
    (handleSubmit host post s).state = submitSettle (.ok r) (submitBegin s) := by
  simp only [handleSubmit, hb, hp]

theorem bookingComplete_stays (host : Host) (t : WizardState) (e : Event)
    (h : t.bookingComplete = true) : (applyEvent host t e).bookingComplete = true := by
  cases e with
  | userDataResolved data =>
    cases data <;> exact h
  | userDataRejected => exact h
  | lawyersBegin => exact h
  | lawyersResolved users => exact h
  | lawyersRejected err => exact h
  | selectLawyer id => exact h
  | selectDate date => exact h
  | selectTime time => exact h
  | inputChange name value =>
    simp only [applyEvent, handleInputChange]
    split_ifs <;> exact h
  | nextStep => exact h
  | prevStep => exact h
  | submit post =>
    simp only [applyEvent, handleSubmit]
    cases buildMeetingData host t with
    | error err => exact h
    | ok md =>
      simp only
      cases post md with
      | resolved data => rfl
      | rejected err => exact h
  | submitBegin => exact h
  | submitSettle r =>
    cases r with
    | ok data => rfl
    | error err => exact h

/-- C10: when the request built from `s` is answered with the body `r`,
`handleSubmit` leaves `s` with `calendarEventInfo = r`, `bookingComplete =
true`, `isSubmitting = false` and nothing else changed, `error` in particular;
if the submit control was on screen and enabled in `s`, the view of the new
state is the Complete summary; and no event takes a state with
`bookingComplete = true` to one with `bookingComplete = false`. -/
theorem C10_success_is_complete_and_terminal (host : Host) (post : MeetingData → PostOutcome)
    (s : WizardState) (md : MeetingData) (r : Option EventInfo)
    (hb : buildMeetingData host s = .ok md) (hp : post md = .resolved r) :
    (handleSubmit host post s).state =
      { s with calendarEventInfo := r, bookingComplete := true, isSubmitting := false } ∧
    (handleSubmit host post s).state.calendarEventInfo = r ∧
    (handleSubmit host post s).state.bookingComplete = true ∧
    (handleSubmit host post s).state.isSubmitting = false ∧
    (handleSubmit host post s).state.error = s.error ∧
    (∀ clock : Clock, (render host clock s).submitDisabled = some false →
      ∀ clock2 : Clock, ∃ lawyer date,
        getSelectedLawyerInfo s = some lawyer ∧ newDate host s.selectedDate = some date ∧
        render host clock2 (handleSubmit host post s).state =
          .complete (some lawyer.name) date s.selectedTime (eventLinkOf r) s.formData.email) ∧
    (∀ (t : WizardState) (e : Event), t.bookingComplete = true →
      (applyEvent host t e).bookingComplete = true) := by
  rw [handleSubmit_state_of_success host post s md r hb hp]
  refine ⟨rfl, rfl, rfl, rfl, rfl, ?_, bookingComplete_stays host⟩
  intro clock hsub clock2
  obtain ⟨hl, he, -, -, ⟨date, hd⟩, -⟩ := submitDisabled_some host clock s false hsub
  obtain ⟨u, em, st, en, hu, -, -, -, -, -⟩ := buildMeetingData_ok host s md hb
  refine ⟨u, date, hu, hd, ?_⟩
  have hu2 : getSelectedLawyerInfo (submitSettle (.ok r) (submitBegin s)) = some u := hu
  simp only [render, hu2, Option.map_some', formatDate]
  simp [submitSettle, submitBegin, hl, he, hd]

theorem C10_success_is_complete_and_terminal_witness :
    (handleSubmit indiaHost postAccepts readyState).state.bookingComplete = true ∧
    render indiaHost (steady 0) (handleSubmit indiaHost postAccepts readyState).state =
      .complete (some "Asha Rao") 1717977600000 "02:00 PM" (some "https://calendar.example/e/1")
        "dana@example.com" :=
  ⟨(C10_success_is_complete_and_terminal indiaHost postAccepts readyState
      (meetingDataOf readyState lawyerAsha "asha@example.com" (some 1718028000000) 1718031600000)
      (some ⟨some "https://calendar.example/e/1"⟩) (by rfl) rfl).2.2.1,
   by
    obtain ⟨lawyer, date, h1, h2, h3⟩ :=
      (C10_success_is_complete_and_terminal indiaHost postAccepts readyState
        (meetingDataOf readyState lawyerAsha "asha@example.com" (some 1718028000000)
          1718031600000)
        (some ⟨some "https://calendar.example/e/1"⟩) (by rfl) rfl).2.2.2.2.2.1 (steady 0) (by decide) (steady 0)
    have e1 : lawyer = lawyerAsha := by
      have : getSelectedLawyerInfo readyState = some lawyerAsha := by decide
      rw [this] at h1
      exact (Option.some.inj h1).symm
    have e2 : date = 1717977600000 := by
      have : newDate indiaHost readyState.selectedDate = some 1717977600000 := by decide
      rw [this] at h2
      exact (Option.some.inj h2).symm
    rw [h3, e1, e2]
    rfl⟩

/-! ## Lemmas on the view -/

/-- A wizard view is the view of a state that is not loading, has no error
and no completed booking. -/
theorem render_eq_wizard (host : Host) (clock : Clock) (s : WizardState) (n : Int) (body : StepView)
    (h : render host clock s = .wizard n body) :
    s.loading = false ∧ truthyOpt s.error = false ∧ s.bookingComplete = false ∧
    n = s.currentStep ∧ renderStep host clock s = .ok body := by
  have hl : s.loading = false := by
    by_contra hc
    simp [render, hc] at h
  have he : truthyOpt s.error = false := by
    by_contra hc
    simp [render, hl, hc] at h
  have hd : s.bookingComplete = false := by
    by_contra hc
    simp only [Bool.not_eq_false] at hc
    simp only [render, hl, he, hc, Bool.false_eq_true, if_false, Bool.not_true] at h
    cases hf : formatDate host s.selectedDate <;> simp [hf] at h
  rw [render_wizard host clock s hl he hd] at h
  cases hr : renderStep host clock s with
  | error e => simp [hr] at h
  | ok b =>
    simp only [hr, View.wizard.injEq] at h
    exact ⟨hl, he, hd, h.1.symm, by rw [h.2]⟩

/-! ## C11 -/

/-- C11: for every step `N` with `2 ≤ N ≤ 4`, `handlePrevStep` yields
`currentStep = N - 1` whatever the rest of the state is (the handler has no
guard, and the Back button of steps 2, 3 and 4 is never disabled), and leaves
`selectedLawyer`, `selectedDate`, `selectedTime`, `formData`, `lawyers`,
`error`, `bookingComplete` and `calendarEventInfo` unchanged. -/
theorem C11_back_keeps_everything (host : Host) (clock : Clock) (s : WizardState)
    (h2 : 2 ≤ s.currentStep) (h4 : s.currentStep ≤ 4) :
    handlePrevStep s = { s with currentStep := s.currentStep - 1 } ∧
    (handlePrevStep s).currentStep = s.currentStep - 1 ∧
    (handlePrevStep s).selectedLawyer = s.selectedLawyer ∧
    (handlePrevStep s).selectedDate = s.selectedDate ∧
    (handlePrevStep s).selectedTime = s.selectedTime ∧
    (handlePrevStep s).formData = s.formData ∧
    (handlePrevStep s).lawyers = s.lawyers ∧
    (handlePrevStep s).error = s.error ∧
    (handlePrevStep s).bookingComplete = s.bookingComplete ∧
    (handlePrevStep s).calendarEventInfo = s.calendarEventInfo ∧
    (handlePrevStep s).isSubmitting = s.isSubmitting ∧
    (handlePrevStep s).loading = s.loading ∧
    (∀ n body, render host clock s = .wizard n body →
      (render host clock s).hasBack = true ∧ (render host clock s).offers Event.prevStep) := by
  refine ⟨rfl, rfl, rfl, rfl, rfl, rfl, rfl, rfl, rfl, rfl, rfl, rfl, ?_⟩
  intro n body hbody
  obtain ⟨-, -, -, -, hstep⟩ := render_eq_wizard host clock s n body hbody
  rw [hbody]
  have hcases : s.currentStep = 2 ∨ s.currentStep = 3 ∨ s.currentStep = 4 := by omega
  rcases hcases with h | h | h
  · simp only [renderStep, h] at hstep
    simp only [show ¬ ((2 : Int) = 1) by decide, if_false, if_true, Except.ok.injEq] at hstep
    subst hstep
    simp [View.hasBack, View.offers]
  · simp only [renderStep, h] at hstep
    simp only [show ¬ ((3 : Int) = 1) by decide, show ¬ ((3 : Int) = 2) by decide, if_false,
      if_true, Except.ok.injEq] at hstep
    subst hstep
    simp [View.hasBack, View.offers]
  · simp only [renderStep, h] at hstep
    simp only [show ¬ ((4 : Int) = 1) by decide, show ¬ ((4 : Int) = 2) by decide,
      show ¬ ((4 : Int) = 3) by decide, if_false, if_true] at hstep
    cases hf : formatDate host s.selectedDate with
    | error e => simp [hf] at hstep
    | ok date =>
      simp only [hf, Except.ok.injEq] at hstep
      subst hstep
      simp [View.hasBack, View.offers]

theorem C11_back_keeps_everything_witness :
    handlePrevStep readyState = { readyState with currentStep := 3 } ∧
    (render indiaHost (steady 0) readyState).hasBack = true :=
  ⟨(C11_back_keeps_everything indiaHost (steady 0) readyState (by decide) (by decide)).1,
   ((C11_back_keeps_everything indiaHost (steady 0) readyState (by decide) (by decide)).2.2.2.2.2.2.2.2.2.2.2.2
      _ _ rfl).1⟩

/-! ## Lemmas on the calendar -/

theorem daysFromCivil_day (y m d : Int) : daysFromCivil y m d = daysFromCivil y m 1 + d - 1 := by
  simp only [daysFromCivil]
  split_ifs <;> omega

theorem daysFromCivil_civilFromDays (z : Int) :
    daysFromCivil (civilFromDays z).1 (civilFromDays z).2.1 (civilFromDays z).2.2 = z := by
  have h := makeDay_civilFromDays z 0
  rw [makeDay] at h
  rw [daysFromCivil_day]
  omega

theorem civilFromDays_month (z : Int) :
    1 ≤ (civilFromDays z).2.1 ∧ (civilFromDays z).2.1 ≤ 12 ∧ 1 ≤ (civilFromDays z).2.2 ∧
    (civilFromDays z).2.2 ≤ 31 := by
  have hb := civilFromDays_year_of_era (z + 719468 - (z + 719468) / 146097 * 146097)
    (by omega) (by omega)
  simp only [civilFromDays]
  generalize hera : (z + 719468) / 146097 = era at hb ⊢
  generalize hdoe : z + 719468 - era * 146097 = doe at hb ⊢
  generalize hyoe : (doe - doe / 1460 + doe / 36524 - doe / 146096) / 365 = yoe at hb ⊢
  obtain ⟨b1, b2, b3, b4⟩ := hb
  generalize hdoy : doe - (365 * yoe + yoe / 4 - yoe / 100) = doy at b3 b4 ⊢
  have hmp : 0 ≤ (5 * doy + 2) / 153 ∧ (5 * doy + 2) / 153 ≤ 11 := by omega
  generalize hmpe : (5 * doy + 2) / 153 = mp at hmp ⊢
  refine ⟨?_, ?_, ?_, ?_⟩
  · split_ifs <;> omega
  · split_ifs <;> omega
  · omega
  · omega

theorem civilFromDays_year (z : Int) (h1 : -719162 ≤ z) (h2 : z ≤ 2932896) :
    1 ≤ (civilFromDays z).1 ∧ (civilFromDays z).1 ≤ 9999 := by
  have hm := civilFromDays_month z
  have hz := daysFromCivil_civilFromDays z
  generalize (civilFromDays z).1 = y at *
  generalize (civilFromDays z).2.1 = m at *
  generalize (civilFromDays z).2.2 = d at *
  obtain ⟨m1, m2, d1, d2⟩ := hm
  simp only [daysFromCivil] at hz
  by_contra hc
  have : y ≤ -1 ∨ y = 0 ∨ y = 10000 ∨ 10001 ≤ y := by omega
  rcases this with hy | hy | hy | hy
  · split_ifs at hz <;> omega
  · subst hy
    split_ifs at hz <;> omega
  · subst hy
    split_ifs at hz <;> omega
  · split_ifs at hz <;> omega


theorem civilFromDays_leap (doe : Int) (h0 : 0 ≤ doe) (h1 : doe ≤ 146096) :
    doe - (365 * ((doe - doe / 1460 + doe / 36524 - doe / 146096) / 365)
      + (doe - doe / 1460 + doe / 36524 - doe / 146096) / 365 / 4
      - (doe - doe / 1460 + doe / 36524 - doe / 146096) / 365 / 100) ≤ 364 ∨
    ((((doe - doe / 1460 + doe / 36524 - doe / 146096) / 365) + 1) % 4 = 0 ∧
     (((((doe - doe / 1460 + doe / 36524 - doe / 146096) / 365) + 1) % 100 ≠ 0) ∨
       (((doe - doe / 1460 + doe / 36524 - doe / 146096) / 365) + 1) % 400 = 0)) := by
  have hb := civilFromDays_year_of_era doe h0 h1
  generalize hyoe : (doe - doe / 1460 + doe / 36524 - doe / 146096) / 365 = yoe at hb ⊢
  obtain ⟨b1, b2, b3, b4⟩ := hb
  by_cases hdoy : doe - (365 * yoe + yoe / 4 - yoe / 100) ≤ 364
  · exact Or.inl hdoy
  right
  have hdoe : doe = 365 * yoe + yoe / 4 - yoe / 100 + 365 := by omega
  have hq : doe / 36524 = 0 ∨ doe / 36524 = 1 ∨ doe / 36524 = 2 ∨ doe / 36524 = 3 ∨
      doe / 36524 = 4 := by omega
  have hc : yoe / 100 = 0 ∨ yoe / 100 = 1 ∨ yoe / 100 = 2 ∨ yoe / 100 = 3 ∨
      yoe / 100 = 4 := by omega
  have hr : yoe % 4 = 0 ∨ yoe % 4 = 1 ∨ yoe % 4 = 2 ∨ yoe % 4 = 3 := by omega
  have hz : doe / 146096 = 0 ∨ doe / 146096 = 1 := by omega
  generalize hE : yoe / 4 = e at *
  have hy : yoe = 4 * e + yoe % 4 := by omega
  rcases hq with h | h | h | h | h <;> rcases hc with h2 | h2 | h2 | h2 | h2 <;>
    rcases hr with h3 | h3 | h3 | h3 <;> rcases hz with h4 | h4 <;> omega

theorem isLeapYear_of (y : Int) (h4 : y % 4 = 0) (h : y % 100 ≠ 0 ∨ y % 400 = 0) :
    isLeapYear y = true := by
  unfold isLeapYear
  rcases h with h | h
  · simp [h4, h]
  · simp [h]

theorem civilFromDays_day_le (z : Int) :
    (civilFromDays z).2.2 ≤ daysInMonth (civilFromDays z).1 (civilFromDays z).2.1 := by
  have hb := civilFromDays_year_of_era (z + 719468 - (z + 719468) / 146097 * 146097)
    (by omega) (by omega)
  have hl := civilFromDays_leap (z + 719468 - (z + 719468) / 146097 * 146097)
    (by omega) (by omega)
  simp only [civilFromDays]
  generalize hera : (z + 719468) / 146097 = era at hb hl ⊢
  generalize hdoe : z + 719468 - era * 146097 = doe at hb hl ⊢
  generalize hyoe : (doe - doe / 1460 + doe / 36524 - doe / 146096) / 365 = yoe at hb hl ⊢
  obtain ⟨b1, b2, b3, b4⟩ := hb
  generalize hdoy : doe - (365 * yoe + yoe / 4 - yoe / 100) = doy at b3 b4 hl ⊢
  have hmp : 0 ≤ (5 * doy + 2) / 153 ∧ (5 * doy + 2) / 153 ≤ 11 := by omega
  generalize hmpe : (5 * doy + 2) / 153 = mp at hmp ⊢
  obtain ⟨p1, p2⟩ := hmp
  interval_cases mp
  all_goals norm_num [daysInMonth]
  all_goals try omega
  -- February
  rcases hl with hl | ⟨l4, l100⟩
  · split_ifs <;> omega
  · have hleap : isLeapYear (yoe + era * 400 + 1) = true := by
      apply isLeapYear_of
      · omega
      · rcases l100 with l | l
        · left; omega
        · right; omega
    simp only [hleap, if_true]
    omega


theorem padDigits_four (n : Nat) :
    padDigits 4 n = [digitChar (n / 1000), digitChar (n / 100), digitChar (n / 10), digitChar n] := by
  simp [padDigits, Nat.div_div_eq_div_mul]

theorem parseInt_four (n : Nat) (h : n < 10000) :
    parseInt [digitChar (n / 1000), digitChar (n / 100), digitChar (n / 10), digitChar n] = n := by
  simp only [parseInt, List.foldl_cons, List.foldl_nil, (digitChar_spec _).2]
  omega

theorem parseInt_two (n : Nat) (h : n < 100) :
    parseInt [digitChar (n / 10), digitChar n] = n := by
  simp only [parseInt, List.foldl_cons, List.foldl_nil, (digitChar_spec _).2]
  omega

/-- The date string of a day of the years 1 to 9999 parses back to that day. -/
theorem parseDateOnly_ymdOfDay (z : Int) (h1 : -719162 ≤ z) (h2 : z ≤ 2932896) :
    parseDateOnly (ymdOfDay z) = some z := by
  obtain ⟨y1, y2⟩ := civilFromDays_year z h1 h2
  obtain ⟨m1, m2, d1, d2⟩ := civilFromDays_month z
  have hd := civilFromDays_day_le z
  have hz := daysFromCivil_civilFromDays z
  simp only [ymdOfDay]
  generalize (civilFromDays z).1 = y at *
  generalize (civilFromDays z).2.1 = m at *
  generalize (civilFromDays z).2.2 = d at *
  obtain ⟨yn, rfl⟩ := Int.eq_ofNat_of_zero_le (show 0 ≤ y by omega)
  obtain ⟨mn, rfl⟩ := Int.eq_ofNat_of_zero_le (show 0 ≤ m by omega)
  obtain ⟨dn, rfl⟩ := Int.eq_ofNat_of_zero_le (show 0 ≤ d by omega)
  have e1 : parseInt [digitChar (yn / 1000), digitChar (yn / 100), digitChar (yn / 10),
      digitChar yn] = yn := parseInt_four yn (by omega)
  have e2 : parseInt [digitChar (mn / 10), digitChar mn] = mn := parseInt_two mn (by omega)
  have e3 : parseInt [digitChar (dn / 10), digitChar dn] = dn := parseInt_two dn (by omega)
  simp only [parseDateOnly, String.toList, Int.toNat_ofNat, padDigits_four,
    padDigits_two, List.cons_append, List.nil_append, List.all_cons, List.all_nil,
    (digitChar_spec _).1, Bool.and_self, if_true, e1, e2, e3]
  simp only [m1, m2, d1, hd, and_self, if_true, hz]


theorem formatYMD_eq (z : Zone) (t : Int) :
    formatYMD z t = ymdOfDay (day (localTime z t)) := rfl

/-- Entry `i` of `availableDates` (counted from 0), computed from the clock
reading `now`, is the date string of a day of the years 1 to 9999. -/
theorem availableDates_entry_valid (z : Zone) (hz : z.Bounded) (now : Int) (i : Nat)
    (hi : i ≤ 6) (h1 : -62000000000000 ≤ now) (h2 : now ≤ 253000000000000) :
    ∃ d, parseDateOnly
      (match setDate z (some now) ((getDate z (some now)).map fun d => d + (i : Int) + 1) with
        | some t => formatYMD z t
        | none => "") = some d ∧ -719162 ≤ d ∧ d ≤ 2932896 := by
  have hf : (fun d : Int => d + (i : Int) + 1) = fun d => d + ((i : Int) + 1) := by
    funext d
    ring
  have hb := shift_bounds z hz now (((i : Int) + 1) * msPerDay)
  have hl := localTime_bounds z hz (utcOfLocal z (localTime z now + ((i : Int) + 1) * msPerDay))
  simp only [hf, setDate_getDate_add]
  generalize utcOfLocal z (localTime z now + ((i : Int) + 1) * msPerDay) = u at hb hl ⊢
  have hclip : timeClip u = some u := by
    apply timeClip_of_bounds
    · simp only [msPerDay, maxTimeValue] at hb ⊢
      omega
    · simp only [msPerDay, maxTimeValue] at hb ⊢
      omega
  simp only [hclip, formatYMD_eq]
  generalize localTime z u = lt at hl ⊢
  have d1 : -719162 ≤ day lt := by
    simp only [day, msPerDay] at hb hl ⊢
    omega
  have d2 : day lt ≤ 2932896 := by
    simp only [day, msPerDay] at hb hl ⊢
    omega
  exact ⟨day lt, parseDateOnly_ymdOfDay _ d1 d2, d1, d2⟩

theorem availableDates_unfold (z : Zone) (clock : Clock) :
    availableDates z clock = ([0, 1, 2, 3, 4, 5, 6] : List Nat).map fun i =>
      match setDate z (some (clock i))
          ((getDate z (some (clock i))).map fun d => d + (i : Int) + 1) with
      | some t => formatYMD z t
      | none => "" := rfl

/-- Every date offered by a render that reads the clock within the years 5 to
9987, in a zone within a day of UTC, is the date string of a day of the years
1 to 9999. -/
theorem availableDates_valid (z : Zone) (hz : z.Bounded) (clock : Clock) (hc : clock.InRange)
    (x : String) (hx : x ∈ availableDates z clock) :
    ∃ d, parseDateOnly x = some d ∧ -719162 ≤ d ∧ d ≤ 2932896 := by
  rw [availableDates_unfold] at hx
  simp only [List.map_cons, List.map_nil, List.mem_cons, List.mem_singleton, List.not_mem_nil,
    or_false] at hx
  rcases hx with rfl | rfl | rfl | rfl | rfl | rfl | rfl
  · exact availableDates_entry_valid z hz (clock 0) 0 (by decide) (hc 0).1 (hc 0).2
  · exact availableDates_entry_valid z hz (clock 1) 1 (by decide) (hc 1).1 (hc 1).2
  · exact availableDates_entry_valid z hz (clock 2) 2 (by decide) (hc 2).1 (hc 2).2
  · exact availableDates_entry_valid z hz (clock 3) 3 (by decide) (hc 3).1 (hc 3).2
  · exact availableDates_entry_valid z hz (clock 4) 4 (by decide) (hc 4).1 (hc 4).2
  · exact availableDates_entry_valid z hz (clock 5) 5 (by decide) (hc 5).1 (hc 5).2
  · exact availableDates_entry_valid z hz (clock 6) 6 (by decide) (hc 6).1 (hc 6).2

/-- Entry `i` of `availableDates` in a zone with one offset all year. -/
theorem availableDates_entry (tz now : Int) (i : Nat) (hi6 : i ≤ 6)
    (htz1 : -1440 ≤ tz) (htz2 : tz ≤ 1440)
    (h1 : -719162 ≤ day (now + tz * msPerMinute))
    (h2 : day (now + tz * msPerMinute) + 7 ≤ 2932896) :
    (match setDate (Zone.fixed tz) (some now)
        ((getDate (Zone.fixed tz) (some now)).map fun d => d + (i : Int) + 1) with
      | some t => formatYMD (Zone.fixed tz) t
      | none => "") = ymdOfDay (day (now + tz * msPerMinute) + ((i : Int) + 1)) := by
  have hf : (fun d : Int => d + (i : Int) + 1) = fun d => d + ((i : Int) + 1) := by
    funext d
    ring
  have hday : day (now + ((i : Int) + 1) * msPerDay + tz * msPerMinute)
      = day (now + tz * msPerMinute) + ((i : Int) + 1) := by
    simp only [day, msPerDay, msPerMinute]
    omega
  have hclip : timeClip (now + ((i : Int) + 1) * msPerDay)
      = some (now + ((i : Int) + 1) * msPerDay) := by
    apply timeClip_of_bounds
    · simp only [day, msPerDay, msPerMinute, maxTimeValue] at h1 h2 ⊢
      omega
    · simp only [day, msPerDay, msPerMinute, maxTimeValue] at h1 h2 ⊢
      omega
  simp only [hf, setDate_fixed, hclip, formatYMD_eq, localTime_fixed, hday]

/-- In a zone with one offset all year, when the seven readings of the clock
are the same instant `now`, the seven dates are the date strings of the seven
days that follow the local day of `now`: they are consecutive, all different,
and today is not among them. -/
theorem availableDates_fixed_zone (tz now : Int) (htz1 : -1440 ≤ tz) (htz2 : tz ≤ 1440)
    (h1 : -719162 ≤ day (now + tz * msPerMinute))
    (h2 : day (now + tz * msPerMinute) + 7 ≤ 2932896) :
    availableDates (Zone.fixed tz) (steady now) =
      [ymdOfDay (day (now + tz * msPerMinute) + 1), ymdOfDay (day (now + tz * msPerMinute) + 2),
       ymdOfDay (day (now + tz * msPerMinute) + 3), ymdOfDay (day (now + tz * msPerMinute) + 4),
       ymdOfDay (day (now + tz * msPerMinute) + 5), ymdOfDay (day (now + tz * msPerMinute) + 6),
       ymdOfDay (day (now + tz * msPerMinute) + 7)] ∧
    (availableDates (Zone.fixed tz) (steady now)).map parseDateOnly =
      [some (day (now + tz * msPerMinute) + 1), some (day (now + tz * msPerMinute) + 2),
       some (day (now + tz * msPerMinute) + 3), some (day (now + tz * msPerMinute) + 4),
       some (day (now + tz * msPerMinute) + 5), some (day (now + tz * msPerMinute) + 6),
       some (day (now + tz * msPerMinute) + 7)] ∧
    formatYMD (Zone.fixed tz) now ∉ availableDates (Zone.fixed tz) (steady now) ∧
    (availableDates (Zone.fixed tz) (steady now)).Nodup := by
  have heq : availableDates (Zone.fixed tz) (steady now) =
      [ymdOfDay (day (now + tz * msPerMinute) + 1), ymdOfDay (day (now + tz * msPerMinute) + 2),
       ymdOfDay (day (now + tz * msPerMinute) + 3), ymdOfDay (day (now + tz * msPerMinute) + 4),
       ymdOfDay (day (now + tz * msPerMinute) + 5), ymdOfDay (day (now + tz * msPerMinute) + 6),
       ymdOfDay (day (now + tz * msPerMinute) + 7)] := by
    rw [availableDates_unfold]
    simp only [List.map_cons, List.map_nil, steady]
    rw [availableDates_entry tz now 0 (by decide) htz1 htz2 h1 h2,
      availableDates_entry tz now 1 (by decide) htz1 htz2 h1 h2,
      availableDates_entry tz now 2 (by decide) htz1 htz2 h1 h2,
      availableDates_entry tz now 3 (by decide) htz1 htz2 h1 h2,
      availableDates_entry tz now 4 (by decide) htz1 htz2 h1 h2,
      availableDates_entry tz now 5 (by decide) htz1 htz2 h1 h2,
      availableDates_entry tz now 6 (by decide) htz1 htz2 h1 h2]
    norm_num
  have hparse : (availableDates (Zone.fixed tz) (steady now)).map parseDateOnly =
      [some (day (now + tz * msPerMinute) + 1), some (day (now + tz * msPerMinute) + 2),
       some (day (now + tz * msPerMinute) + 3), some (day (now + tz * msPerMinute) + 4),
       some (day (now + tz * msPerMinute) + 5), some (day (now + tz * msPerMinute) + 6),
       some (day (now + tz * msPerMinute) + 7)] := by
    rw [heq]
    simp only [List.map_cons, List.map_nil]
    rw [parseDateOnly_ymdOfDay _ (by omega) (by omega),
      parseDateOnly_ymdOfDay _ (by omega) (by omega),
      parseDateOnly_ymdOfDay _ (by omega) (by omega),
      parseDateOnly_ymdOfDay _ (by omega) (by omega),
      parseDateOnly_ymdOfDay _ (by omega) (by omega),
      parseDateOnly_ymdOfDay _ (by omega) (by omega),
      parseDateOnly_ymdOfDay _ (by omega) (by omega)]
  have htoday : parseDateOnly (formatYMD (Zone.fixed tz) now)
      = some (day (now + tz * msPerMinute)) := by
    rw [formatYMD_eq, localTime_fixed]
    exact parseDateOnly_ymdOfDay _ h1 (by omega)
  refine ⟨heq, hparse, ?_, ?_⟩
  · intro hmem
    have hm : parseDateOnly (formatYMD (Zone.fixed tz) now)
        ∈ (availableDates (Zone.fixed tz) (steady now)).map parseDateOnly :=
      List.mem_map_of_mem _ hmem
    rw [hparse, htoday] at hm
    simp only [List.mem_cons, Option.some.injEq, List.mem_singleton, List.not_mem_nil,
      or_false] at hm
    omega
  · apply List.Nodup.of_map parseDateOnly
    rw [hparse]
    simp only [List.nodup_cons, List.mem_cons, Option.some.injEq, List.mem_singleton,
      List.not_mem_nil, or_false, not_or, List.nodup_nil, and_true, not_false_eq_true]
    omega

/-! ## C12 -/

/-- C12 (the code in the week the clocks go forward, and at midnight): on a
host in the zone America/Nuuk at 23:30 of 28 March 2024, a time of day that
does not exist on 30 March, `availableDates` has seven entries but leaves out
30 March and has 31 March twice, so the dates are neither consecutive nor
strictly increasing; and on a host at UTC+5:30 a render during which midnight
passes between the third and the fourth reading of the clock leaves out the
fourth day after today and ends eight days after it.  The list of slots is the
seven labels in their order. -/
theorem C12_dates_skip_and_repeat :
    formatYMD nuukZone 1711675800000 = "2024-03-28" ∧
    hourFromTime (localTime nuukZone 1711675800000) = 23 ∧
    minFromTime (localTime nuukZone 1711675800000) = 30 ∧
    (availableDates nuukZone (steady 1711675800000)).length = 7 ∧
    availableDates nuukZone (steady 1711675800000) =
      ["2024-03-29", "2024-03-31", "2024-03-31", "2024-04-01", "2024-04-02", "2024-04-03",
       "2024-04-04"] ∧
    "2024-03-30" ∉ availableDates nuukZone (steady 1711675800000) ∧
    ¬ (availableDates nuukZone (steady 1711675800000)).Nodup ∧
    formatYMD indiaHost.zone (midnightPasses 0) = "2024-06-09" ∧
    formatYMD indiaHost.zone (midnightPasses 6) = "2024-06-10" ∧
    midnightPasses 6 - midnightPasses 0 = 1 ∧
    availableDates indiaHost.zone midnightPasses =
      ["2024-06-10", "2024-06-11", "2024-06-12", "2024-06-14", "2024-06-15", "2024-06-16",
       "2024-06-17"] ∧
    availableTimeSlots =
      ["09:00 AM", "10:00 AM", "11:00 AM", "01:00 PM", "02:00 PM", "03:00 PM", "04:00 PM"] := by
  refine ⟨by decide, by decide, by decide, by decide, by decide, by decide, by decide,
    by decide, by decide, by decide, by decide, rfl⟩

/-! ## C13 -/

/-- C13: on a host whose zone is UTC+5:30, for every date `d` and every label
that parses to `hour:min`, `convertToISODateTime` returns the instant 330
minutes after the instant at which a UTC+5:30 wall clock reads `d hour:min`;
the UTC reading of the returned instant is `d hour:min`, and the returned
instant is never the instant that was selected. -/
theorem C13_offset_applied_twice (host : Host) (hz : host.zone = Zone.fixed 330)
    (hp : host.Conforms) (d : Int) (hour min : Nat) (dateStr timeStr : String)
    (hd : parseDateOnly dateStr = some d) (ht : parseTimeLabel timeStr = some (hour, min))
    (hh : hour ≤ 23) (hm : min ≤ 59) :
    convertToISODateTime host dateStr timeStr
      = .ok (some (wallClockInstant 330 d hour min + 330 * msPerMinute)) ∧
    wallClockInstant 330 d hour min + 330 * msPerMinute = wallClockInstant 0 d hour min ∧
    day (wallClockInstant 330 d hour min + 330 * msPerMinute) = d ∧
    hourFromTime (wallClockInstant 330 d hour min + 330 * msPerMinute) = hour ∧
    minFromTime (wallClockInstant 330 d hour min + 330 * msPerMinute) = min ∧
    (∀ t, convertToISODateTime host dateStr timeStr = .ok (some t) →
      t = wallClockInstant 330 d hour min + 19800000 ∧ t ≠ wallClockInstant 330 d hour min) := by
  have hc := convertToISODateTime_east host 330 d hour min dateStr timeStr hz hp hd ht hh hm
    (by decide) (by decide)
  refine ⟨hc, ?_, ?_, ?_, ?_, ?_⟩
  · simp only [wallClockInstant, msPerMinute]
    omega
  · simp only [day, wallClockInstant, makeDate, makeTime, msPerDay, msPerHour,
      msPerMinute]
    omega
  · simp only [hourFromTime, wallClockInstant, makeDate, makeTime, msPerDay,
      msPerHour, msPerMinute]
    omega
  · simp only [minFromTime, wallClockInstant, makeDate, makeTime, msPerDay,
      msPerHour, msPerMinute]
    omega
  · intro t h
    rw [hc] at h
    simp only [Except.ok.injEq, Option.some.injEq] at h
    subst h
    simp only [msPerMinute]
    constructor <;> omega

theorem C13_offset_applied_twice_witness :
    convertToISODateTime indiaHost "2024-06-10" "02:00 PM"
      = .ok (some (wallClockInstant 330 19884 14 0 + 330 * msPerMinute)) ∧
    wallClockInstant 330 19884 14 0 + 330 * msPerMinute = wallClockInstant 0 19884 14 0 :=
  ⟨(C13_offset_applied_twice indiaHost rfl (strict_conforms _) 19884 14 0 "2024-06-10"
      "02:00 PM" (by decide) (by decide) (by decide) (by decide)).1,
   (C13_offset_applied_twice indiaHost rfl (strict_conforms _) 19884 14 0 "2024-06-10"
      "02:00 PM" (by decide) (by decide) (by decide) (by decide)).2.1⟩

/-! ## Lemmas on sessions -/

theorem renderStep_one (host : Host) (clock : Clock) (ui : WizardState) (h : ui.currentStep = 1) :
    renderStep host clock ui =
      .ok (.selectLawyer (ui.lawyers.map (lawyerCard ui)) (ui.selectedLawyer == none)) := by
  simp [renderStep, h]

theorem renderStep_two (host : Host) (clock : Clock) (ui : WizardState) (h : ui.currentStep = 2) :
    renderStep host clock ui =
      .ok (.dateTime (availableDates host.zone clock)
        (if truthy ui.selectedDate then some availableTimeSlots else none)
        (!truthy ui.selectedDate || !truthy ui.selectedTime)) := by
  simp [renderStep, h]

theorem renderStep_three (host : Host) (clock : Clock) (ui : WizardState) (h : ui.currentStep = 3) :
    renderStep host clock ui =
      .ok (.details ui.formData.name ui.formData.email ui.formData.caseDetails
        (!truthy ui.formData.name || !truthy ui.formData.email)) := by
  simp [renderStep, h]

theorem renderStep_four (host : Host) (clock : Clock) (ui : WizardState) (h : ui.currentStep = 4) :
    renderStep host clock ui =
      match formatDate host ui.selectedDate with
      | .error err => .error err
      | .ok date =>
        .ok (.confirm (getSelectedLawyerInfo ui) date ui.selectedTime ui.formData.name
          ui.formData.email
          (if truthy ui.formData.caseDetails then some ui.formData.caseDetails else none)
          ui.isSubmitting
          (if ui.isSubmitting then "Processing..." else "Confirm Booking")) := by
  simp [renderStep, h]

theorem renderStep_other (host : Host) (clock : Clock) (ui : WizardState) (h1 : ui.currentStep ≠ 1)
    (h2 : ui.currentStep ≠ 2) (h3 : ui.currentStep ≠ 3) (h4 : ui.currentStep ≠ 4) :
    renderStep host clock ui = .ok .blank := by
  simp [renderStep, h1, h2, h3, h4]

theorem offers_cases (host : Host) (clock : Clock) (ui : WizardState) (e : Event)
    (h : (render host clock ui).offers e) :
    ui.loading = false ∧ truthyOpt ui.error = false ∧ ui.bookingComplete = false ∧
    ((ui.currentStep = 1 ∧
        ((∃ u ∈ ui.lawyers, e = .selectLawyer u._id) ∨
         (e = .nextStep ∧ ui.selectedLawyer ≠ none))) ∨
     (ui.currentStep = 2 ∧
        ((∃ d ∈ availableDates host.zone clock, e = .selectDate d) ∨
         (∃ x ∈ availableTimeSlots, e = .selectTime x ∧ ui.selectedDate ≠ "") ∨
         (e = .nextStep ∧ ui.selectedDate ≠ "" ∧ ui.selectedTime ≠ "") ∨
         e = .prevStep)) ∨
     (ui.currentStep = 3 ∧
        ((∃ v, e = .inputChange "caseDetails" v) ∨
         (e = .nextStep ∧ ui.formData.name ≠ "" ∧ ui.formData.email ≠ "") ∨
         e = .prevStep)) ∨
     (ui.currentStep = 4 ∧ (∃ date, newDate host ui.selectedDate = some date) ∧
        (e = .prevStep ∨ (e = .submitBegin ∧ ui.isSubmitting = false)))) := by
  generalize hv : render host clock ui = v at h
  cases v with
  | loading => simp [View.offers] at h
  | errorPage msg => simp [View.offers] at h
  | complete a b c d f => simp [View.offers] at h
  | renderError err => simp [View.offers] at h
  | wizard n body =>
    obtain ⟨hl, he, hd, -, hstep⟩ := render_eq_wizard host clock ui n body hv
    refine ⟨hl, he, hd, ?_⟩
    by_cases h1 : ui.currentStep = 1
    · left
      rw [renderStep_one host clock ui h1] at hstep
      simp only [Except.ok.injEq] at hstep
      subst hstep
      refine ⟨h1, ?_⟩
      cases e <;> simp [View.offers] at h
      · left
        obtain ⟨u, hu, hid⟩ := h
        exact ⟨u, hu, by simp [← hid, lawyerCard]⟩
      · right
        exact ⟨rfl, h⟩
    by_cases h2 : ui.currentStep = 2
    · right; left
      rw [renderStep_two host clock ui h2] at hstep
      simp only [Except.ok.injEq] at hstep
      subst hstep
      refine ⟨h2, ?_⟩
      by_cases hsd : truthy ui.selectedDate = true
      · have hsd2 : ui.selectedDate ≠ "" := (truthy_iff _).1 hsd
        simp only [hsd, if_true] at h
        cases e <;> simp [View.offers] at h
        · left; exact ⟨_, h, rfl⟩
        · right; left; exact ⟨_, h, rfl, hsd2⟩
        · right; right; left
          exact ⟨rfl, hsd2, (truthy_iff _).1 h⟩
        · right; right; right; rfl
      · simp only [hsd] at h
        cases e <;> simp [View.offers] at h
        · left; exact ⟨_, h, rfl⟩
        · right; right; right; rfl
    by_cases h3 : ui.currentStep = 3
    · right; right; left
      rw [renderStep_three host clock ui h3] at hstep
      simp only [Except.ok.injEq] at hstep
      subst hstep
      refine ⟨h3, ?_⟩
      cases e <;> simp [View.offers] at h
      · left; exact ⟨_, by rw [h]⟩
      · right; left
        exact ⟨rfl, (truthy_iff _).1 h.1, (truthy_iff _).1 h.2⟩
      · right; right; rfl
    by_cases h4 : ui.currentStep = 4
    · right; right; right
      rw [renderStep_four host clock ui h4] at hstep
      cases hf : formatDate host ui.selectedDate with
      | error err => simp [hf] at hstep
      | ok date =>
        simp only [hf, Except.ok.injEq] at hstep
        subst hstep
        have hnd : ∃ date, newDate host ui.selectedDate = some date := by
          unfold formatDate at hf
          cases hn : newDate host ui.selectedDate with
          | none => simp [hn] at hf
          | some d => exact ⟨d, rfl⟩
        refine ⟨h4, hnd, ?_⟩
        cases e <;> simp [View.offers] at h
        · left; rfl
        · right; exact ⟨rfl, h⟩
    · rw [renderStep_other host clock ui h1 h2 h3 h4] at hstep
      simp only [Except.ok.injEq] at hstep
      subst hstep
      simp [View.offers] at h


theorem invariant_init (host : Host) (renders : List Clock) :
    Invariant host renders Sys.init where
  step_lo := by decide
  step_hi := by decide
  pending_lawyers := fun _ => ⟨rfl, rfl⟩
  lawyer_known := by intro id h; simp [Sys.init, initialState] at h
  lawyer_set := by intro h; simp [Sys.init, initialState] at h
  date_offered := Or.inl rfl
  time_offered := Or.inl rfl
  slot_set := by intro h; simp [Sys.init, initialState] at h
  contact_set := by intro h; simp [Sys.init, initialState] at h
  pending_user := fun _ => ⟨rfl, rfl⟩
  one_post := Or.inl ⟨rfl, rfl⟩

/-- The invariant of a session stays when one more render happens. -/
theorem invariant_later (host : Host) (renders : List Clock) (c : Clock) (s : Sys)
    (inv : Invariant host renders s) : Invariant host (c :: renders) s where
  step_lo := inv.step_lo
  step_hi := inv.step_hi
  pending_lawyers := inv.pending_lawyers
  lawyer_known := inv.lawyer_known
  lawyer_set := inv.lawyer_set
  date_offered := by
    rcases inv.date_offered with h | ⟨c1, h1, h2⟩
    · exact Or.inl h
    · exact Or.inr ⟨c1, List.mem_cons_of_mem _ h1, h2⟩
  time_offered := inv.time_offered
  slot_set := inv.slot_set
  contact_set := inv.contact_set
  pending_user := inv.pending_user
  one_post := inv.one_post

/-- A state change keeps the invariant. -/
theorem invariant_step (host : Host) (shown : Clock) (past : List Clock) (s s2 : Sys)
    (inv : Invariant host (shown :: past) s) (hs : Step host shown s s2) :
    Invariant host (shown :: past) s2 := by
  obtain ⟨i1, i2, i3, i4, i5, i6, i7, i8, i9, i10, i11⟩ := inv
  cases hs with
  | userDataResolved data h =>
    obtain ⟨n0, e0⟩ := i10 h
    have hstep : ¬ (4 ≤ s.ui.currentStep) := fun h4 => (i9 h4).1 n0
    cases data with
    | none =>
      exact ⟨i1, i2, i3, i4, i5, i6, i7, i8, i9, fun hp => by simp at hp, i11⟩
    | some d =>
      exact ⟨i1, i2, i3, i4, i5, i6, i7, i8, fun h4 => absurd h4 hstep,
        fun hp => by simp at hp, i11⟩
  | userDataRejected h =>
    exact ⟨i1, i2, i3, i4, i5, i6, i7, i8, i9, fun hp => by simp at hp, i11⟩
  | lawyersResolved users h =>
    obtain ⟨-, hnone⟩ := i3 h
    refine ⟨i1, i2, fun hp => by simp at hp, ?_, i5, i6, i7, i8, i9, i10, i11⟩
    intro id hid
    have : s.ui.selectedLawyer = some id := hid
    rw [hnone] at this
    simp at this
  | lawyersRejected err h =>
    exact ⟨i1, i2, fun hp => by simp at hp, i4, i5, i6, i7, i8, i9, i10, i11⟩
  | control e h hne =>
    obtain ⟨hl, -, -, hcases⟩ := offers_cases host shown s.ui e h
    have hnp : s.lawyersPending = false := by
      by_contra hc
      simp only [Bool.not_eq_false] at hc
      rw [(i3 hc).1] at hl
      simp at hl
    have i3' : ∀ (a : Bool) (b : Option String),
        s.lawyersPending = true → a = true ∧ b = none :=
      fun _ _ hp => by rw [hnp] at hp; simp at hp
    rcases hcases with ⟨h1, hc⟩ | ⟨h2, hc⟩ | ⟨h3, hc⟩ | ⟨h4, -, hc⟩
    · rcases hc with ⟨u, hu, rfl⟩ | ⟨rfl, hsel⟩
      · refine ⟨i1, i2, i3' _ _, ?_, ?_, i6, i7, i8, i9, i10, i11⟩
        · intro id hid
          have hid2 : some u._id = some id := hid
          exact ⟨u, hu, Option.some.inj hid2⟩
        · intro _ hn
          have : some u._id = none := hn
          simp at this
      · refine ⟨?_, ?_, i3' _ _, i4, fun _ => hsel, i6, i7, ?_, ?_, i10, i11⟩
        · show 1 ≤ s.ui.currentStep + 1
          omega
        · show s.ui.currentStep + 1 ≤ 4
          omega
        · intro h
          have : 3 ≤ s.ui.currentStep + 1 := h
          omega
        · intro h
          have : 4 ≤ s.ui.currentStep + 1 := h
          omega
    · rcases hc with ⟨d, hd, rfl⟩ | ⟨x, hx, rfl, -⟩ | ⟨rfl, hsd, hst⟩ | rfl
      · refine ⟨i1, i2, i3' _ _, i4, i5, Or.inr ⟨shown, List.mem_cons_self _ _, hd⟩, i7, ?_, i9, i10, i11⟩
        intro h
        have : 3 ≤ s.ui.currentStep := h
        omega
      · refine ⟨i1, i2, i3' _ _, i4, i5, i6, Or.inr hx, ?_, i9, i10, i11⟩
        intro h
        have : 3 ≤ s.ui.currentStep := h
        omega
      · refine ⟨?_, ?_, i3' _ _, i4, fun _ => i5 (by omega), i6, i7, fun _ => ⟨hsd, hst⟩,
          ?_, i10, i11⟩
        · show 1 ≤ s.ui.currentStep + 1
          omega
        · show s.ui.currentStep + 1 ≤ 4
          omega
        · intro h
          have : 4 ≤ s.ui.currentStep + 1 := h
          omega
      · refine ⟨?_, ?_, i3' _ _, i4, ?_, i6, i7, ?_, ?_, i10, i11⟩
        · show 1 ≤ s.ui.currentStep - 1
          omega
        · show s.ui.currentStep - 1 ≤ 4
          omega
        · intro h
          have : 2 ≤ s.ui.currentStep - 1 := h
          omega
        · intro h
          have : 3 ≤ s.ui.currentStep - 1 := h
          omega
        · intro h
          have : 4 ≤ s.ui.currentStep - 1 := h
          omega
    · rcases hc with ⟨v, rfl⟩ | ⟨rfl, hn, hem⟩ | rfl
      · exact ⟨i1, i2, i3' _ _, i4, i5, i6, i7, i8, i9, i10, i11⟩
      · refine ⟨?_, ?_, i3' _ _, i4, fun _ => i5 (by omega), i6, i7,
          fun _ => i8 (by omega), fun _ => ⟨hn, hem⟩, i10, i11⟩
        · show 1 ≤ s.ui.currentStep + 1
          omega
        · show s.ui.currentStep + 1 ≤ 4
          omega
      · refine ⟨?_, ?_, i3' _ _, i4, fun _ => i5 (by omega), i6, i7, ?_, ?_, i10, i11⟩
        · show 1 ≤ s.ui.currentStep - 1
          omega
        · show s.ui.currentStep - 1 ≤ 4
          omega
        · intro h
          have : 3 ≤ s.ui.currentStep - 1 := h
          omega
        · intro h
          have : 4 ≤ s.ui.currentStep - 1 := h
          omega
    · rcases hc with rfl | ⟨rfl, -⟩
      · refine ⟨?_, ?_, i3' _ _, i4, fun _ => i5 (by omega), i6, i7,
          fun _ => i8 (by omega), ?_, i10, i11⟩
        · show 1 ≤ s.ui.currentStep - 1
          omega
        · show s.ui.currentStep - 1 ≤ 4
          omega
        · intro h
          have : 4 ≤ s.ui.currentStep - 1 := h
          omega
      · exact absurd rfl hne
  | submitThrew err h hb =>
    obtain ⟨hl, -, -, hcases⟩ := offers_cases host shown s.ui _ h
    have hsub : s.ui.isSubmitting = false := by
      rcases hcases with ⟨-, hc⟩ | ⟨-, hc⟩ | ⟨-, hc⟩ | ⟨-, -, hc⟩
      · rcases hc with ⟨u, -, hu⟩ | ⟨hu, -⟩ <;> simp at hu
      · rcases hc with ⟨d, -, hu⟩ | ⟨x, -, hu, -⟩ | ⟨hu, -, -⟩ | hu <;> simp at hu
      · rcases hc with ⟨v, hu⟩ | ⟨hu, -, -⟩ | hu <;> simp at hu
      · rcases hc with hu | ⟨-, hu⟩
        · simp at hu
        · exact hu
    have hfl : s.inFlight = [] := by
      rcases i11 with ⟨hf, -⟩ | ⟨md, -, hsub2⟩
      · exact hf
      · rw [hsub] at hsub2
        simp at hsub2
    exact ⟨i1, i2, i3, i4, i5, i6, i7, i8, i9, i10, Or.inl ⟨hfl, rfl⟩⟩
  | submitSent md h hb =>
    obtain ⟨hl, -, -, hcases⟩ := offers_cases host shown s.ui _ h
    have hsub : s.ui.isSubmitting = false := by
      rcases hcases with ⟨-, hc⟩ | ⟨-, hc⟩ | ⟨-, hc⟩ | ⟨-, -, hc⟩
      · rcases hc with ⟨u, -, hu⟩ | ⟨hu, -⟩ <;> simp at hu
      · rcases hc with ⟨d, -, hu⟩ | ⟨x, -, hu, -⟩ | ⟨hu, -, -⟩ | hu <;> simp at hu
      · rcases hc with ⟨v, hu⟩ | ⟨hu, -, -⟩ | hu <;> simp at hu
      · rcases hc with hu | ⟨-, hu⟩
        · simp at hu
        · exact hu
    have hfl : s.inFlight = [] := by
      rcases i11 with ⟨hf, -⟩ | ⟨md, -, hsub2⟩
      · exact hf
      · rw [hsub] at hsub2
        simp at hsub2
    refine ⟨i1, i2, i3, i4, i5, i6, i7, i8, i9, i10, Or.inr ⟨md, ?_, rfl⟩⟩
    show md :: s.inFlight = [md]
    rw [hfl]
  | postSettled md rest r h =>
    have hrest : rest = [] := by
      rcases i11 with ⟨hf, -⟩ | ⟨md2, hf, -⟩
      · rw [hf] at h
        simp at h
      · rw [hf] at h
        simp only [List.cons.injEq] at h
        exact h.2.symm
    cases r with
    | resolved data =>
      exact ⟨i1, i2, i3, i4, i5, i6, i7, i8, i9, i10, Or.inl ⟨hrest, rfl⟩⟩
    | rejected err =>
      exact ⟨i1, i2, i3, i4, i5, i6, i7, i8, i9, i10, Or.inl ⟨hrest, rfl⟩⟩


theorem reach_invariant (host : Host) (renders : List Clock) (s : Sys)
    (h : Reach host renders s) : Invariant host renders s := by
  induction h with
  | init c => exact invariant_init host [c]
  | rerender c past s c2 _ ih => exact invariant_later host (c :: past) c2 s ih
  | step c past s s2 c2 _ hs ih =>
    exact invariant_later host (c :: past) c2 s2 (invariant_step host c past s s2 ih hs)

/-- A session that crosses local midnight: the lawyers and the user arrive,
Asha Rao, 2024-06-10 and 02:00 PM are chosen from the render of 23:59, and the
last Continue is clicked at 00:01. -/
theorem ready_reachable : Reach indiaHost rendersOverMidnight readySys := by
  have r0 : Reach indiaHost [steady beforeMidnight] Sys.init := Reach.init _
  have r1 := Reach.step _ _ _ ⟨lawyersLoadedState, true, false, []⟩ (steady beforeMidnight) r0
      (Step.lawyersResolved Sys.init [clientBen, lawyerAsha, lawyerNoMail] rfl)
  have r2 := Reach.step _ _ _ ⟨loadedState, false, false, []⟩ (steady beforeMidnight) r1
      (Step.userDataResolved _ (some ⟨some "Dana", some "dana@example.com"⟩) rfl)
  have r3 := Reach.step _ _ _ ⟨lawyerChosenState, false, false, []⟩ (steady beforeMidnight) r2
      (Step.control _ (Event.selectLawyer "L1")
        (show ∃ c ∈ [lawyerCard _ lawyerAsha, lawyerCard _ lawyerNoMail], c.id = "L1" from
          ⟨_, List.mem_cons_self _ _, rfl⟩)
        (by intro h; cases h))
  have r4 := Reach.step _ _ _ ⟨{ lawyerChosenState with currentStep := 2 }, false, false, []⟩
      (steady beforeMidnight) r3
      (Step.control _ Event.nextStep (show (some "L1" == none) = false from rfl)
        (by intro h; cases h))
  have r5 := Reach.step _ _ _ ⟨dateChosenState, false, false, []⟩ (steady beforeMidnight) r4
      (Step.control _ (Event.selectDate "2024-06-10")
        (show "2024-06-10" ∈ availableDates indiaHost.zone (steady beforeMidnight) from
          by decide)
        (by intro h; cases h))
  have r6 := Reach.step _ _ _ ⟨{ readyState with currentStep := 2 }, false, false, []⟩
      (steady beforeMidnight) r5
      (Step.control _ (Event.selectTime "02:00 PM")
        (show "02:00 PM" ∈ availableTimeSlots from by decide)
        (by intro h; cases h))
  have r7 := Reach.step _ _ _ ⟨{ readyState with currentStep := 3 }, false, false, []⟩
      (steady beforeMidnight) r6
      (Step.control _ Event.nextStep
        (show (!truthy "2024-06-10" || !truthy "02:00 PM") = false from by decide)
        (by intro h; cases h))
  exact Reach.step _ _ _ readySys (steady afterMidnight) r7
    (Step.control _ Event.nextStep
      (show (!truthy "Dana" || !truthy "dana@example.com") = false from by decide)
      (by intro h; cases h))

/-- The state of `ready_reachable` after a click on `Confirm Booking`, while
the request is outstanding. -/
theorem submitted_reachable :
    Reach indiaHost (steady afterMidnight :: rendersOverMidnight) submittedSys :=
  Reach.step _ _ _ submittedSys (steady afterMidnight) ready_reachable
    (Step.submitSent _ _ (show false = false from rfl) rfl)

theorem steady_inRange (t : Int) (h1 : -62000000000000 ≤ t) (h2 : t ≤ 253000000000000) :
    (steady t).InRange := fun _ => ⟨h1, h2⟩

theorem rendersOverMidnight_inRange : ∀ r ∈ rendersOverMidnight, r.InRange := by
  intro r hr
  simp only [rendersOverMidnight, List.mem_cons, List.mem_singleton, List.not_mem_nil,
    or_false] at hr
  rcases hr with rfl | rfl | rfl | rfl | rfl | rfl | rfl | rfl | rfl <;>
    exact steady_inRange _ (by decide) (by decide)

/-- Where the Continue and Back buttons are rendered. -/
theorem buttons_rendered (host : Host) (clock : Clock) (ui : WizardState) :
    ((render host clock ui).continueDisabled ≠ none →
      1 ≤ ui.currentStep ∧ ui.currentStep ≤ 3) ∧
    ((render host clock ui).hasBack = true → 2 ≤ ui.currentStep ∧ ui.currentStep ≤ 4) := by
  generalize hv : render host clock ui = v
  cases v with
  | loading => simp [View.continueDisabled, View.hasBack]
  | errorPage msg => simp [View.continueDisabled, View.hasBack]
  | complete a b c d f => simp [View.continueDisabled, View.hasBack]
  | renderError err => simp [View.continueDisabled, View.hasBack]
  | wizard n body =>
    obtain ⟨-, -, -, -, hstep⟩ := render_eq_wizard host clock ui n body hv
    by_cases h1 : ui.currentStep = 1
    · rw [renderStep_one host clock ui h1] at hstep
      simp only [Except.ok.injEq] at hstep
      subst hstep
      simp [View.continueDisabled, View.hasBack, h1]
    by_cases h2 : ui.currentStep = 2
    · rw [renderStep_two host clock ui h2] at hstep
      simp only [Except.ok.injEq] at hstep
      subst hstep
      simp [View.continueDisabled, View.hasBack, h2]
    by_cases h3 : ui.currentStep = 3
    · rw [renderStep_three host clock ui h3] at hstep
      simp only [Except.ok.injEq] at hstep
      subst hstep
      simp [View.continueDisabled, View.hasBack, h3]
    by_cases h4 : ui.currentStep = 4
    · rw [renderStep_four host clock ui h4] at hstep
      cases hf : formatDate host ui.selectedDate with
      | error err => simp [hf] at hstep
      | ok date =>
        simp only [hf, Except.ok.injEq] at hstep
        subst hstep
        simp [View.continueDisabled, View.hasBack, h4]
    · rw [renderStep_other host clock ui h1 h2 h3 h4] at hstep
      simp only [Except.ok.injEq] at hstep
      subst hstep
      simp [View.continueDisabled, View.hasBack]

/-! ## C15 -/

/-- C15: in every state of a session `1 ≤ currentStep ≤ 4`; the Continue
button is rendered only on steps 1, 2 and 3 and the Back button only on steps
2, 3 and 4, while `handleNextStep` and `handlePrevStep` themselves add and
subtract one at any step. -/
theorem C15_step_between_one_and_four (host : Host) (renders : List Clock) (s : Sys)
    (h : Reach host renders s) :
    1 ≤ s.ui.currentStep ∧ s.ui.currentStep ≤ 4 ∧
    (∀ (ui : WizardState) (clock : Clock), (render host clock ui).continueDisabled ≠ none →
      1 ≤ ui.currentStep ∧ ui.currentStep ≤ 3) ∧
    (∀ (ui : WizardState) (clock : Clock), (render host clock ui).hasBack = true →
      2 ≤ ui.currentStep ∧ ui.currentStep ≤ 4) ∧
    (∀ ui : WizardState, (handleNextStep ui).currentStep = ui.currentStep + 1) ∧
    (∀ ui : WizardState, (handlePrevStep ui).currentStep = ui.currentStep - 1) :=
  ⟨(reach_invariant host renders s h).step_lo, (reach_invariant host renders s h).step_hi,
   fun ui clock => (buttons_rendered host clock ui).1,
   fun ui clock => (buttons_rendered host clock ui).2,
   fun _ => rfl, fun _ => rfl⟩

theorem C15_step_between_one_and_four_witness :
    (1 : Int) ≤ readyState.currentStep ∧ readyState.currentStep ≤ 4 :=
  ⟨(C15_step_between_one_and_four indiaHost rendersOverMidnight readySys ready_reachable).1,
   (C15_step_between_one_and_four indiaHost rendersOverMidnight readySys ready_reachable).2.1⟩

/-! ## C16 -/

/-- C16: in every state of a session at most one `POST /consultation` is
outstanding, and one is outstanding exactly when `isSubmitting` is true; the
submit button, where it is rendered, is disabled exactly when `isSubmitting` is
true, so that no submission can start while a request is outstanding, and a
submission that starts finds none outstanding. -/
theorem C16_one_request_in_flight (host : Host) (renders : List Clock) (s : Sys)
    (h : Reach host renders s) :
    s.inFlight.length ≤ 1 ∧
    (s.inFlight ≠ [] ↔ s.ui.isSubmitting = true) ∧
    (∀ (clock : Clock) d, (render host clock s.ui).submitDisabled = some d →
      d = s.ui.isSubmitting) ∧
    (s.inFlight ≠ [] → ∀ clock : Clock, ¬ (render host clock s.ui).offers Event.submitBegin) ∧
    (∀ clock : Clock, (render host clock s.ui).offers Event.submitBegin → s.inFlight = []) := by
  have inv := reach_invariant host renders s h
  have hoff : ∀ clock : Clock, (render host clock s.ui).offers Event.submitBegin →
      s.ui.isSubmitting = false := by
    intro now ho
    obtain ⟨-, -, -, hcases⟩ := offers_cases host now s.ui _ ho
    rcases hcases with ⟨-, hc⟩ | ⟨-, hc⟩ | ⟨-, hc⟩ | ⟨-, -, hc⟩
    · rcases hc with ⟨u, -, hu⟩ | ⟨hu, -⟩ <;> simp at hu
    · rcases hc with ⟨d, -, hu⟩ | ⟨x, -, hu, -⟩ | ⟨hu, -, -⟩ | hu <;> simp at hu
    · rcases hc with ⟨v, hu⟩ | ⟨hu, -, -⟩ | hu <;> simp at hu
    · rcases hc with hu | ⟨-, hu⟩
      · simp at hu
      · exact hu
  rcases inv.one_post with ⟨hf, hsub⟩ | ⟨md, hf, hsub⟩
  · refine ⟨by simp [hf], by simp [hf, hsub], ?_, by simp [hf], fun _ _ => hf⟩
    intro now d hd
    rw [(submitDisabled_some host now s.ui d hd).2.2.2.2.2]
  · refine ⟨by simp [hf], by simp [hf, hsub], ?_, ?_, ?_⟩
    · intro now d hd
      rw [(submitDisabled_some host now s.ui d hd).2.2.2.2.2]
    · intro _ now ho
      have := hoff now ho
      rw [hsub] at this
      simp at this
    · intro now ho
      have := hoff now ho
      rw [hsub] at this
      simp at this

theorem C16_one_request_in_flight_witness :
    submittedSys.inFlight.length ≤ 1 ∧
    ∀ clock : Clock, ¬ (render indiaHost clock submittedSys.ui).offers Event.submitBegin :=
  ⟨(C16_one_request_in_flight indiaHost _ submittedSys submitted_reachable).1,
   (C16_one_request_in_flight indiaHost _ submittedSys submitted_reachable).2.2.2.1
      (by simp [submittedSys])⟩

/-! ## Lemmas on the `try` block -/

theorem toISOString_error (tv : Option Int) (e : JsError) (h : toISOString tv = .error e) :
    e = ⟨some "Invalid time value"⟩ := by
  cases tv with
  | none =>
    simp only [toISOString, Except.error.injEq] at h
    exact h.symm
  | some t => simp [toISOString] at h

theorem convertToISODateTime_error (host : Host) (dateStr timeStr : String) (e : JsError)
    (h : convertToISODateTime host dateStr timeStr = .error e) :
    e = ⟨some "Invalid time value"⟩ := by
  unfold convertToISODateTime at h
  cases ht : parseTimeLabel timeStr with
  | none => simp [ht] at h
  | some hm =>
    simp only [ht] at h
    cases hr : toISOString (setMinutes1 host.zone
        (setHours4 host.zone (newDate host dateStr) hm.1 hm.2 0 0)
        ((getMinutes host.zone (setHours4 host.zone (newDate host dateStr) hm.1 hm.2 0 0)).map
          fun m => m + 330)) with
    | error e2 =>
      rw [hr] at h
      simp only [Except.map, Except.error.injEq] at h
      rw [← h]
      exact toISOString_error _ _ hr
    | ok t =>
      rw [hr] at h
      simp [Except.map] at h

/-- With the selected lawyer in the list, the `try` block does not throw
`Selected lawyer not found`. -/
theorem buildMeetingData_error_of_found (host : Host) (s : WizardState) (u : User)
    (e : JsError) (hu : getSelectedLawyerInfo s = some u)
    (h : buildMeetingData host s = .error e) :
    e = ⟨some "Lawyer email not available"⟩ ∨ e = ⟨some "Invalid time value"⟩ := by
  unfold buildMeetingData at h
  simp only [hu] at h
  by_cases hm : truthyOpt u.email = true
  · simp only [hm, not_true_eq_false, if_false] at h
    cases hc : convertToISODateTime host s.selectedDate s.selectedTime with
    | error e2 =>
      simp only [hc, Except.error.injEq] at h
      rw [← h]
      exact Or.inr (convertToISODateTime_error _ _ _ _ hc)
    | ok st =>
      simp only [hc] at h
      cases he : endTimeOf host.zone st with
      | error e2 =>
        simp only [he, Except.error.injEq] at h
        rw [← h]
        exact Or.inr (toISOString_error _ _ he)
      | ok en => simp [he] at h
  · simp only [Bool.not_eq_true] at hm
    simp only [hm, Bool.false_eq_true, not_false_eq_true, if_true, Except.error.injEq] at h
    exact Or.inl h.symm

/-- On the Confirm step of a session the selection is complete: the lawyer is
one of the list, the date was offered by a render of the session and the time
is a slot. -/
theorem confirm_step_selection (host : Host) (renders : List Clock) (s : Sys)
    (h : Reach host renders s) (h4 : s.ui.currentStep = 4) :
    (∃ u ∈ s.ui.lawyers, s.ui.selectedLawyer = some u._id) ∧
    (∃ c ∈ renders, s.ui.selectedDate ∈ availableDates host.zone c) ∧
    s.ui.selectedTime ∈ availableTimeSlots ∧
    s.ui.formData.name ≠ "" ∧ s.ui.formData.email ≠ "" := by
  have inv := reach_invariant host renders s h
  refine ⟨?_, ?_, ?_, inv.contact_set (by omega)⟩
  · have hne := inv.lawyer_set (by omega)
    cases hs : s.ui.selectedLawyer with
    | none => exact absurd hs hne
    | some id =>
      obtain ⟨u, hu, hid⟩ := inv.lawyer_known id hs
      exact ⟨u, hu, by rw [hid]⟩
  · rcases inv.date_offered with he | hd
    · exact absurd he (inv.slot_set (by omega)).1
    · exact hd
  · rcases inv.time_offered with he | hd
    · exact absurd he (inv.slot_set (by omega)).2
    · exact hd

/-! ## C8 -/

/-- C8: in every state of a session that is on the Confirm step, the step
whose button invokes `handleSubmit`, if the selected lawyer is found in the
lawyers list and has a non-empty email, one invocation of `handleSubmit` sends
exactly one request; its attendees are `formData.email` and the email of the
lawyer, in that order, its `lawyerId` is the `_id` of the lawyer, its title is
`Legal Consultation with ` followed by the name of the lawyer, and its
description is `Case Details: ` followed by `formData.caseDetails`, or by
`No details provided` when that is empty.  The host has a zone within a day of
UTC and a parser that reads valid date-only strings as ECMA-262 prescribes, and
the clock is read within the years 5 to 9987. -/
theorem C8_one_request_with_both_emails (host : Host) (hz : host.zone.Bounded)
    (hp : host.Conforms) (renders : List Clock) (hclock : ∀ r ∈ renders, r.InRange)
    (s : Sys) (hreach : Reach host renders s) (hstep : s.ui.currentStep = 4)
    (post : MeetingData → PostOutcome) (u : User) (em : String)
    (hu : getSelectedLawyerInfo s.ui = some u) (hem : u.email = some em) (hne : em ≠ "") :
    ∃ md, (handleSubmit host post s.ui).requests = [md] ∧
      md.attendees = [s.ui.formData.email, em] ∧
      md.lawyerId = u._id ∧
      md.title = "Legal Consultation with " ++ u.name ∧
      md.description = "Case Details: " ++
        (if s.ui.formData.caseDetails = "" then "No details provided"
         else s.ui.formData.caseDetails) := by
  have hdesc : (if truthy s.ui.formData.caseDetails then s.ui.formData.caseDetails
      else "No details provided") = (if s.ui.formData.caseDetails = ""
        then "No details provided" else s.ui.formData.caseDetails) := by
    by_cases hc : s.ui.formData.caseDetails = ""
    · simp [hc, truthy]
    · simp [hc, truthy]
  obtain ⟨-, ⟨c, hc, hmem⟩, hslot, -⟩ := confirm_step_selection host renders s hreach hstep
  obtain ⟨d, hd, -, -⟩ := availableDates_valid host.zone hz c (hclock c hc) _ hmem
  obtain ⟨st, en, hreq⟩ := handleSubmit_requests_of_valid host hz hp post s.ui u em d hu hem hne
    hd (slot_in_range _ hslot)
  refine ⟨meetingDataOf s.ui u em st en, hreq, rfl, rfl, rfl, ?_⟩
  simp only [meetingDataOf, hdesc]

theorem C8_one_request_with_both_emails_witness :
    ∃ md, (handleSubmit indiaHost postAccepts readyState).requests = [md] ∧
      md.attendees = ["dana@example.com", "asha@example.com"] ∧
      md.lawyerId = "L1" ∧
      md.title = "Legal Consultation with Asha Rao" ∧
      md.description = "Case Details: No details provided" :=
  C8_one_request_with_both_emails indiaHost (fixed_bounded 330 (by decide) (by decide))
    (strict_conforms _) rendersOverMidnight rendersOverMidnight_inRange readySys
    ready_reachable (by decide) postAccepts lawyerAsha "asha@example.com"
    (by decide) (by decide) (by decide)

/-! ## C14 -/

/-- C14 (as stated, refuted): a session on a UTC+5:30 host picks 2024-06-10
from the dates rendered at 23:59 of 2024-06-09 and reaches the Confirm step at
00:01; the dates of that render start at 2024-06-11 and no longer contain the
selected date. -/
theorem C14_counterexample :
    Reach indiaHost rendersOverMidnight readySys ∧
    rendersOverMidnight.head? = some (steady afterMidnight) ∧
    readySys.ui.currentStep = 4 ∧
    readySys.ui.selectedDate ∈ availableDates indiaHost.zone (steady beforeMidnight) ∧
    readySys.ui.selectedDate ∉ availableDates indiaHost.zone (steady afterMidnight) ∧
    availableDates indiaHost.zone (steady afterMidnight) =
      ["2024-06-11", "2024-06-12", "2024-06-13", "2024-06-14", "2024-06-15", "2024-06-16",
       "2024-06-17"] :=
  ⟨ready_reachable, rfl, by decide, by decide, by decide, by decide⟩

/-- C14 (amended): in every state of a session that is on step 4,
`selectedLawyer` is the `_id` of an entry of `lawyers`, so that the lookup of
`handleSubmit` succeeds and `Selected lawyer not found` is not thrown;
`selectedDate` is one of the `availableDates` of one of the renders of the
session; `selectedTime` is one of the seven slot labels, so that
`convertToISODateTime` does not return null; and `formData.name` and
`formData.email` are non-empty. -/
theorem C14_confirm_step_selection (host : Host) (renders : List Clock) (s : Sys)
    (h : Reach host renders s) (h4 : s.ui.currentStep = 4) :
    (∃ u ∈ s.ui.lawyers, s.ui.selectedLawyer = some u._id) ∧
    getSelectedLawyerInfo s.ui ≠ none ∧
    buildMeetingData host s.ui ≠ .error ⟨some "Selected lawyer not found"⟩ ∧
    (∃ c ∈ renders, s.ui.selectedDate ∈ availableDates host.zone c) ∧
    s.ui.selectedTime ∈ availableTimeSlots ∧
    convertToISODateTime host s.ui.selectedDate s.ui.selectedTime ≠ .ok none ∧
    s.ui.formData.name ≠ "" ∧ s.ui.formData.email ≠ "" := by
  obtain ⟨hsel, hdate, htime, hcontact⟩ := confirm_step_selection host renders s h h4
  have hfound : getSelectedLawyerInfo s.ui ≠ none := by
    intro hnone
    obtain ⟨u, hu, hid⟩ := hsel
    exact (getSelectedLawyerInfo_none_iff s.ui).1 hnone u hu hid.symm
  refine ⟨hsel, hfound, ?_, hdate, htime, ?_, hcontact⟩
  · intro hb
    cases hu : getSelectedLawyerInfo s.ui with
    | none => exact hfound hu
    | some u =>
      rcases buildMeetingData_error_of_found host s.ui u _ hu hb with h1 | h1
      · simp at h1
      · simp at h1
  · intro hc
    obtain ⟨hour, min, hp, -, -⟩ := slot_parses _ htime
    obtain ⟨x, hx⟩ := convertToISODateTime_label host _ _ _ none hp hc
    simp at hx

theorem C14_confirm_step_selection_witness :
    getSelectedLawyerInfo readyState ≠ none ∧ readyState.selectedTime ∈ availableTimeSlots ∧
    ∃ c ∈ rendersOverMidnight, readyState.selectedDate ∈ availableDates indiaHost.zone c :=
  ⟨(C14_confirm_step_selection indiaHost rendersOverMidnight readySys ready_reachable
      (by decide)).2.1,
   (C14_confirm_step_selection indiaHost rendersOverMidnight readySys ready_reachable
      (by decide)).2.2.2.2.1,
   (C14_confirm_step_selection indiaHost rendersOverMidnight readySys ready_reachable
      (by decide)).2.2.2.1⟩

end ScheduleMeet
